import Mathlib

/-!
# Verification development for `cds`

Shallow embedding of

* `cli/cds/pipeline/run.go`    : `runPipeline`, `streamResponse`
* `engine/api/action.go`       : `deleteActionHandler`, `addActionHandler`,
  `importActionHandler`
* `engine/api/group/group.go`  : `LoadGroup`, `LoadGroupByID`, `InsertGroup`, `AddGroup`,
  `DeleteUserFromGroup`

The command-line launcher talks to the remote API through package `sdk`, and the
handlers talk to the database through package `action`.  Neither package is part
of the inspected sources, so their operations are parameters of the model
(records of functions), and every call is recorded in a trace of events.  The
functions of `group.go` send their SQL statements themselves; they run on a
database state holding the tables `group` and `group_user`.
-/

namespace Cds

/-! ## Go strings and the `strings` functions used by the launcher -/

/-- Go string, modelled as the sequence of its characters.  Every separator and
marker the code searches for (`=`, `/`, `status: Fail`) is ASCII. -/
abbrev GoString := List Char

/-- Go `strings.HasPrefix`: `len(s) >= len(p) && s[:len(p)] == p`. -/
def HasPrefix : GoString → GoString → Bool
  | _, [] => true
  | [], _ :: _ => false
  | c :: s, d :: p => c == d && HasPrefix s p

/-- Go `strings.Index`: position of the first occurrence of `substr` in `s`,
`none` standing for the `-1` of the Go function. -/
def Index : GoString → GoString → Option Nat
  | [], substr => if HasPrefix [] substr then some 0 else none
  | c :: s, substr =>
    if HasPrefix (c :: s) substr then some 0
    else (Index s substr).map (· + 1)

/-- Go `strings.Contains`: `Index(s, substr) >= 0`. -/
def Contains (s substr : GoString) : Bool :=
  (Index s substr).isSome

/-- Loop of the general case of Go `strings.Count`:
`for { i := Index(s, substr); if i == -1 { return n }; n++; s = s[i+len(substr):] }`.
The first argument bounds the number of iterations. -/
def countLoop : Nat → GoString → GoString → Nat → Nat
  | 0, _, _, n => n
  | fuel + 1, s, substr, n =>
    match Index s substr with
    | none => n
    | some i => countLoop fuel (s.drop (i + substr.length)) substr (n + 1)

/-- Go `strings.Count`: number of non-overlapping occurrences of `substr` in `s`
(one more than the number of characters for an empty `substr`; a direct count of
the character for a one-character `substr`). -/
def Count (s substr : GoString) : Nat :=
  match substr with
  | [] => s.length + 1
  | [c] => s.count c
  | _ => countLoop (s.length + 1) s substr 0

/-- Go `strings.explode`: split `s` into at most `n` one-character strings, the
last of them holding the rest of `s`. -/
def explode : GoString → Nat → List GoString
  | [], _ => []
  | _ :: _, 0 => []
  | c :: s, n + 1 => if n = 0 ∨ s = [] then [c :: s] else [c] :: explode s n

/-- Loop of Go `strings.genSplit` (with `sepSave = 0`):
`for i < n { m := Index(s, sep); if m < 0 { break }; a[i] = s[:m]; s = s[m+len(sep):]; i++ }; a[i] = s`.
The first argument is the number `n - i` of iterations left. -/
def genSplitLoop (sep : GoString) : Nat → GoString → List GoString
  | 0, s => [s]
  | k + 1, s =>
    match Index s sep with
    | none => [s]
    | some m => s.take m :: genSplitLoop sep k (s.drop (m + sep.length))

/-- Go `strings.genSplit` with `sepSave = 0`: split `s` around `sep` into at most
`n` pieces (`n < 0`: all pieces, `n = 0`: none). -/
def genSplit (s sep : GoString) (n : Int) : List GoString :=
  if n = 0 then []
  else if sep = [] then explode s (if n < 0 then s.length else n.toNat)
  else
    let n : Nat := if n < 0 then Count s sep + 1 else n.toNat
    let n : Nat := if n > s.length + 1 then s.length + 1 else n
    genSplitLoop sep (n - 1) s

/-- Go `strings.SplitN(s, sep, n)`. -/
def SplitN (s sep : GoString) (n : Int) : List GoString := genSplit s sep n

/-- Go `strings.Split(s, sep)`: `genSplit(s, sep, 0, -1)`. -/
def Split (s sep : GoString) : List GoString := genSplit s sep (-1)

/-- Go indexing `t[i]` of a slice of strings, at the places of `run.go` where the
length of the slice has been checked before. -/
def elemAt (t : List GoString) (i : Nat) : GoString := t.getD i []

/-! ## Data of package `sdk` -/

/-- Modelled from the spec: `sdk.Parameter`, declared in package `sdk` outside the
inspected sources; the spec gives it as (Name, Type, Value). -/
structure Parameter where
  Name : GoString
  Type_ : GoString
  Value : GoString
  deriving DecidableEq, Repr

/-- Modelled from the spec: `sdk.Application`, of which the launcher reads `ID`
and `Name`. -/
structure Application where
  ID : Int
  Name : GoString
  deriving DecidableEq, Repr

/-- Modelled from the spec: `sdk.Pipeline`, of which the launcher reads `ID` and
`Name`. -/
structure Pipeline where
  ID : Int
  Name : GoString
  deriving DecidableEq, Repr

/-- Modelled from the spec: `sdk.Environment`, of which the launcher reads `ID`
and `Name`. -/
structure Environment where
  ID : Int
  Name : GoString
  deriving DecidableEq, Repr

/-- Modelled from the spec: `sdk.PipelineTrigger` (the spec's TriggerLink), of
which the launcher reads the destination triple and the parameter template. -/
structure PipelineTrigger where
  DestApplication : Application
  DestPipeline : Pipeline
  DestEnvironment : Environment
  Parameters : List Parameter
  deriving DecidableEq, Repr

/-- Modelled from the spec: `sdk.PipelineBuild`, of which the launcher reads
`BuildNumber`. -/
structure PipelineBuild where
  BuildNumber : Int
  deriving DecidableEq, Repr

/-- Modelled from the spec: `sdk.Log` (the spec's LogRecord).  `Timestamp` holds
the text `l.Timestamp.String()`, which Go renders with at least 19 bytes
(`2006-01-02 15:04:05...`), so that the slice `[:19]` is its first 19 bytes. -/
structure Log where
  ID : Int
  Timestamp : GoString
  Step : GoString
  Value : GoString
  deriving DecidableEq, Repr

/-- Modelled from the spec: `sdk.RunRequest`, with the five fields `runPipeline`
fills in. -/
structure RunRequest where
  Params : List Parameter
  ParentBuildNumber : Int
  ParentPipelineID : Int
  ParentApplicationID : Int
  ParentEnvironmentID : Int
  deriving DecidableEq, Repr

/-- The remote operations of package `sdk` that `runPipeline` calls.  Each is
called at most once in a run, so a function of its arguments describes what the
server answers; `Except.error` carries the Go `error`. -/
structure Sdk where
  GetApplication : GoString → GoString → Except GoString Application
  GetPipeline : GoString → GoString → Except GoString Pipeline
  GetEnvironment : GoString → GoString → Except GoString Environment
  GetTriggersAsSource :
    GoString → GoString → GoString → GoString → Except GoString (List PipelineTrigger)
  GetPipelineBuildStatus :
    GoString → GoString → GoString → GoString → Int → Except GoString PipelineBuild
  RunPipeline :
    GoString → GoString → GoString → GoString → Bool → RunRequest → Bool →
      Except GoString (List Log)

/-- The package-level variables bound to the command-line flags of `run`. -/
structure Flags where
  cmdPipelineRunArguments : List GoString
  batch : Bool
  parentInfo : GoString
  parentBuildNumber : Int

/-! ## Processes: traces of observable events and `sdk.Exit` -/

deriving instance DecidableEq for Except

/-- What a run does that can be observed from outside: the calls to the remote
API, with their arguments, and the writes to standard output. -/
inductive Event where
  | GetApplication (projectKey name : GoString)
  | GetPipeline (projectKey name : GoString)
  | GetEnvironment (projectKey name : GoString)
  | GetTriggersAsSource (projectKey app pip env : GoString)
  | GetPipelineBuildStatus (projectKey app pip env : GoString) (buildNumber : Int)
  | RunPipeline (projectKey appName name envName : GoString) (stream : Bool)
      (r : RunRequest) (followTriggers : Bool)
  | Fprintln (cells : List GoString)
  | Fprintf (date step value : GoString)
  | Flush
  deriving DecidableEq, Repr

/-- The `sdk.Exit` calls of `run.go`, one constructor for each call site, with
the arguments of its message. -/
inductive ExitMsg where
  | wrongUsage
  | parentInfoFormat
  | applicationNotFound (name err : GoString)
  | pipelineNotFound (name err : GoString)
  | environmentNotFound (name err : GoString)
  | cannotFetchTriggers (err : GoString)
  | linkNotFound
  | cannotFetchLastBuild (projectKey app pip env err : GoString)
  | malformedParameter (elt : GoString)
  | runError (err : GoString)
  | pipelineFail
  deriving DecidableEq, Repr

/-- A process: the events it has produced, and either the value it computed or
the `sdk.Exit` that stopped it. -/
structure Proc (α : Type) where
  trace : List Event
  result : Except ExitMsg α
  deriving DecidableEq

namespace Proc

/-- The process `p` run after the events `tr` have been produced. -/
def prepend {α : Type} (tr : List Event) (p : Proc α) : Proc α :=
  ⟨tr ++ p.trace, p.result⟩

/-- Sequencing: the second process runs only if the first was not stopped. -/
def bind {α β : Type} (m : Proc α) (f : α → Proc β) : Proc β :=
  match m.result with
  | .error e => ⟨m.trace, .error e⟩
  | .ok a => prepend m.trace (f a)

instance : Monad Proc where
  pure a := ⟨[], .ok a⟩
  bind := bind

/-- Record one event. -/
def emit (e : Event) : Proc Unit := ⟨[e], .ok ()⟩

/-- Perform a remote call: record it and hand its answer back. -/
def call {α : Type} (e : Event) (answer : Except GoString α) : Proc (Except GoString α) :=
  ⟨[e], .ok answer⟩

end Proc

/-- Modelled from the spec: `sdk.Exit`, declared in package `sdk` outside the
inspected sources: it prints the message and terminates the process with a
non-zero exit status, so nothing after it runs. -/
def Exit {α : Type} (msg : ExitMsg) : Proc α := ⟨[], .error msg⟩

/-! ## `runPipeline` and `streamResponse` (cli/cds/pipeline/run.go) -/

/-- Loop of `streamResponse`, over the records the channel delivers before it is
closed: each record is written and flushed, and a record with `ID == 0` whose
value contains `status: Fail` stops the process. -/
def streamLoop : List Log → Proc Unit
  | [] => pure ()
  | l :: ch => do
    Proc.emit (.Fprintf (l.Timestamp.take 19) l.Step l.Value)
    Proc.emit .Flush
    -- Exit 1 if pipeline fail
    if l.ID = 0 ∧ Contains l.Value "status: Fail".toList = true then
      Exit .pipelineFail
    streamLoop ch

/-- Go `streamResponse(ch)`; `ch` is the sequence of records sent on the channel
before it is closed. -/
def streamResponse (ch : List Log) : Proc Unit := do
  let titles := ["DATE".toList, "ACTION".toList, "LOG".toList]
  Proc.emit (.Fprintln titles)
  streamLoop ch

/-- Line 63 of `runPipeline`: `strings.Split(parentInfo, "/")`. -/
def segments (parentInfo : GoString) : List GoString := Split parentInfo "/".toList

/-- Trigger loop of `runPipeline` (lines 94-100): the parameters of the first
trigger whose destination names equal the target names; `none` when the loop
ends with `found == false`. -/
def findTrigger (appName name envName : GoString) : List PipelineTrigger → Option (List Parameter)
  | [] => none
  | t :: trs =>
    if t.DestApplication.Name = appName ∧ t.DestPipeline.Name = name
        ∧ t.DestEnvironment.Name = envName then
      some t.Parameters
    else findTrigger appName name envName trs

/-- Parameter loop of `runPipeline` (lines 116-127): each entry is cut at its
first `=` and appended to `params`; an entry that does not give two pieces stops
the process. -/
def parseParameters : List GoString → List Parameter → Proc (List Parameter)
  | [], params => pure params
  | elt :: pipelineArgs, params =>
    let argSplitted := SplitN elt "=".toList 2
    if argSplitted.length = 2 then
      let p : Parameter :=
        { Name := elemAt argSplitted 0, Type_ := [], Value := elemAt argSplitted 1 }
      parseParameters pipelineArgs (params ++ [p])
    else
      Exit (.malformedParameter elt)

/-- The local variables of `runPipeline` that the parent block (lines 59-114)
assigns. -/
structure ParentVars where
  params : List Parameter
  parentBuildNumber : Int
  ppipID : Int
  pappID : Int
  penvID : Int
  deriving DecidableEq, Repr

/-- The parent block of `runPipeline` (lines 59-114): if parent info is
provided, fetch the ids, the trigger parameters and the last build number. -/
def resolveParent (sdk : Sdk) (fl : Flags) (projectKey appName name envName : GoString) :
    Proc ParentVars := do
  if fl.parentInfo ≠ [] then
    let t := segments fl.parentInfo
    if t.length < 2 ∨ t.length > 3 then
      Exit .parentInfoFormat
    let t0 := elemAt t 0
    let t1 := elemAt t 1
    let t2 := elemAt t 2
    let app ← match ← Proc.call (.GetApplication projectKey t0) (sdk.GetApplication projectKey t0) with
      | .error err => Exit (.applicationNotFound t0 err)
      | .ok app => pure app
    let pip ← match ← Proc.call (.GetPipeline projectKey t1) (sdk.GetPipeline projectKey t1) with
      | .error err => Exit (.pipelineNotFound t1 err)
      | .ok pip => pure pip
    -- if environment is provided, fetch it
    let (penvID, penv) ←
      if t.length = 3 then
        match ← Proc.call (.GetEnvironment projectKey t2) (sdk.GetEnvironment projectKey t2) with
        | .error err => Exit (.environmentNotFound t2 err)
        | .ok env => pure (env.ID, env.Name)
      else pure ((1 : Int), "NoEnv".toList)
    -- OK now get parameters
    let trs ← match ← Proc.call (.GetTriggersAsSource projectKey t0 t1 penv)
        (sdk.GetTriggersAsSource projectKey t0 t1 penv) with
      | .error err => Exit (.cannotFetchTriggers err)
      | .ok trs => pure trs
    let params ← match findTrigger appName name envName trs with
      | none => Exit .linkNotFound
      | some params => pure params
    -- parent info provided, but not build number, fetch last build
    let parentBuildNumber ←
      if fl.parentBuildNumber = 0 then
        match ← Proc.call (.GetPipelineBuildStatus projectKey t0 t1 penv 0)
            (sdk.GetPipelineBuildStatus projectKey t0 t1 penv 0) with
        | .error err => Exit (.cannotFetchLastBuild projectKey t0 t1 penv err)
        | .ok pb => pure pb.BuildNumber
      else pure fl.parentBuildNumber
    pure { params := params, parentBuildNumber := parentBuildNumber,
           ppipID := pip.ID, pappID := app.ID, penvID := penvID }
  else
    pure { params := [], parentBuildNumber := fl.parentBuildNumber,
           ppipID := 0, pappID := 0, penvID := 0 }

/-- Lines 48-51 of `runPipeline`: `envName` is `args[3]` when there is a fourth
argument, and the empty string otherwise. -/
def envNameOf (args : List GoString) : GoString :=
  if args.length > 3 then elemAt args 3 else []

/-- Lines 129-146 of `runPipeline`: build the run request, submit it, and stream
the answer unless `--batch` was given. -/
def submitRun (sdk : Sdk) (fl : Flags) (projectKey appName name envName : GoString)
    (pv : ParentVars) (params : List Parameter) : Proc Unit := do
  let stream := !fl.batch
  let r : RunRequest :=
    { Params := params
      ParentBuildNumber := pv.parentBuildNumber
      ParentPipelineID := pv.ppipID
      ParentApplicationID := pv.pappID
      ParentEnvironmentID := pv.penvID }
  let ch ← match ← Proc.call (.RunPipeline projectKey appName name envName stream r false)
      (sdk.RunPipeline projectKey appName name envName stream r false) with
    | .error err => Exit (.runError err)
    | .ok ch => pure ch
  if fl.batch then
    return
  streamResponse ch

/-- Go `runPipeline(cmd, args)`, with the flag variables in `fl`. -/
def runPipeline (sdk : Sdk) (fl : Flags) (args : List GoString) : Proc Unit := do
  if args.length < 3 then
    Exit .wrongUsage
  let projectKey := elemAt args 0
  let appName := elemAt args 1
  let name := elemAt args 2
  let envName := envNameOf args
  let pv ← resolveParent sdk fl projectKey appName name envName
  let params ← parseParameters fl.cmdPipelineRunArguments pv.params
  submitRun sdk fl projectKey appName name envName pv params

/-! ## Reading a process -/

/-- The run requests a process has submitted through `sdk.RunPipeline`. -/
def submitted : List Event → List RunRequest
  | [] => []
  | .RunPipeline _ _ _ _ _ r _ :: es => r :: submitted es
  | _ :: es => submitted es

/-- Following the spec's words for an explicit parameter `name=value`: the name is
the text before the first `=`, the value everything after the first `=`. -/
def specParameter (elt : GoString) : Parameter :=
  { Name := elt.takeWhile (· ≠ '=')
    Type_ := []
    Value := (elt.dropWhile (· ≠ '=')).drop 1 }

/-- Following the spec's words: a trigger link matches the target when its
destination application, pipeline and environment names all equal the target's. -/
def matchesTarget (appName name envName : GoString) (t : PipelineTrigger) : Prop :=
  t.DestApplication.Name = appName ∧ t.DestPipeline.Name = name
    ∧ t.DestEnvironment.Name = envName

instance (appName name envName : GoString) (t : PipelineTrigger) :
    Decidable (matchesTarget appName name envName t) := by
  unfold matchesTarget
  infer_instance

/-- The environment name of the parent triple: the sentinel `NoEnv` when the
parent reference has no environment segment, the name of the resolved
environment otherwise. -/
def parentEnvName (parentInfo : GoString) (env : Environment) : GoString :=
  if (segments parentInfo).length = 3 then env.Name else "NoEnv".toList

/-- The environment id of the parent triple: `1` when the parent reference has no
environment segment, the id of the resolved environment otherwise. -/
def parentEnvID (parentInfo : GoString) (env : Environment) : Int :=
  if (segments parentInfo).length = 3 then env.ID else 1

/-- A parent reference is given and resolves up to its trigger links: it has two
or three segments, the application, the pipeline and (with three segments) the
environment are found, and the triggers of that source are `trs`. -/
structure ParentFound (sdk : Sdk) (fl : Flags) (projectKey : GoString)
    (app : Application) (pip : Pipeline) (env : Environment)
    (trs : List PipelineTrigger) : Prop where
  given : fl.parentInfo ≠ []
  count : (segments fl.parentInfo).length = 2 ∨ (segments fl.parentInfo).length = 3
  application :
    sdk.GetApplication projectKey (elemAt (segments fl.parentInfo) 0) = .ok app
  pipeline :
    sdk.GetPipeline projectKey (elemAt (segments fl.parentInfo) 1) = .ok pip
  environment : (segments fl.parentInfo).length = 3 →
    sdk.GetEnvironment projectKey (elemAt (segments fl.parentInfo) 2) = .ok env
  triggers :
    sdk.GetTriggersAsSource projectKey (elemAt (segments fl.parentInfo) 0)
      (elemAt (segments fl.parentInfo) 1) (parentEnvName fl.parentInfo env) = .ok trs

/-- The lookups made for a parent reference up to the fetch of its triggers. -/
def parentLookups (projectKey parentInfo : GoString) (env : Environment) : List Event :=
  [.GetApplication projectKey (elemAt (segments parentInfo) 0),
   .GetPipeline projectKey (elemAt (segments parentInfo) 1)]
  ++ (if (segments parentInfo).length = 3 then
        [.GetEnvironment projectKey (elemAt (segments parentInfo) 2)] else [])
  ++ [.GetTriggersAsSource projectKey (elemAt (segments parentInfo) 0)
        (elemAt (segments parentInfo) 1) (parentEnvName parentInfo env)]

/-- The failure marker of a log stream: a record with `ID = 0` whose value
contains `status: Fail`. -/
def isFailure (l : Log) : Prop :=
  l.ID = 0 ∧ ∃ before after : GoString, l.Value = before ++ "status: Fail".toList ++ after

/-- The events `streamResponse` produces for one record: the line is written,
then flushed. -/
def lineOf (l : Log) : List Event :=
  [.Fprintf (l.Timestamp.take 19) l.Step l.Value, .Flush]

/-- The events of a trace that are latest-build lookups. -/
def isBuildLookup : Event → Bool
  | .GetPipelineBuildStatus _ _ _ _ _ => true
  | _ => false

/-! ## Concrete inputs -/

/-- A server with application, pipeline and environment lookups that succeed, one
trigger link to (`app`, `pip`, no environment) with template `[{k,v}]`, latest
build 42, and a run that streams one step line and then the failure marker. -/
def demoSdk : Sdk where
  GetApplication := fun _ n => .ok ⟨10, n⟩
  GetPipeline := fun _ n => .ok ⟨20, n⟩
  GetEnvironment := fun _ n => .ok ⟨30, n⟩
  GetTriggersAsSource := fun _ _ _ _ =>
    .ok [⟨⟨1, "other".toList⟩, ⟨2, "pip".toList⟩, ⟨3, []⟩, [⟨"x".toList, [], "y".toList⟩]⟩,
         ⟨⟨1, "app".toList⟩, ⟨2, "pip".toList⟩, ⟨3, []⟩, [⟨"k".toList, [], "v".toList⟩]⟩,
         ⟨⟨1, "app".toList⟩, ⟨2, "pip".toList⟩, ⟨3, []⟩, [⟨"k".toList, [], "w".toList⟩]⟩]
  GetPipelineBuildStatus := fun _ _ _ _ _ => .ok ⟨42⟩
  RunPipeline := fun _ _ _ _ _ _ _ =>
    .ok [⟨1, "2016-10-25 10:00:00 +0000 UTC".toList, "build".toList, "ok".toList⟩,
         ⟨0, "2016-10-25 10:00:01 +0000 UTC".toList, [], "status: Fail".toList⟩]

/-- A step line `build: ok` (ID 1). -/
def logBuildOk : Log :=
  ⟨1, "2016-10-25 10:00:00 +0000 UTC".toList, "build".toList, "ok".toList⟩

/-- The terminal failure record: ID 0 and a value with `status: Fail`. -/
def logFail : Log :=
  ⟨0, "2016-10-25 10:00:01 +0000 UTC".toList, [], "Build status: Fail".toList⟩

/-- The command line `run P app pip`. -/
def demoArgs : List GoString := ["P".toList, "app".toList, "pip".toList]

/-- Flags `--batch -p a=1 -p b=2`, no parent. -/
def flagsNoParent : Flags :=
  { cmdPipelineRunArguments := ["a=1".toList, "b=2".toList], batch := true,
    parentInfo := [], parentBuildNumber := 0 }

/-- Flags `--batch --parent <parentInfo> -p <parameter>`, no parent build number. -/
def flagsParent (parentInfo parameter : String) : Flags :=
  { cmdPipelineRunArguments := [parameter.toList], batch := true,
    parentInfo := parentInfo.toList, parentBuildNumber := 0 }

/-! ## `deleteActionHandler` (engine/api/action.go) -/

/-- Modelled from the spec: the error values of package `sdk` that the action
handlers write, declared outside the inspected sources; each name of the code is
a value of its own, and `other` stands for any other Go `error`. -/
inductive SdkError where
  | ErrNoAction
  | ErrForbidden
  | ErrConflict
  | ErrWrongRequest
  | other (msg : GoString)
  deriving DecidableEq, Repr

/-- Modelled from the spec: `sdk.Action`, of which the handlers read or write
`ID`, `Name`, `Type` and `Enabled`. -/
structure Action where
  ID : Int
  Name : GoString
  Type_ : GoString
  Enabled : Bool
  deriving DecidableEq, Repr

/-- The operations of package `action` (outside the inspected sources) that
`deleteActionHandler` calls, on a database state of type `DB`.  The two queries
leave the database as it is; `DeleteAction` returns the database it leaves behind
and its Go `error`, if any. -/
structure ActionStore (DB : Type) where
  LoadPublicAction : DB → GoString → Except SdkError Action
  Used : DB → Int → Except SdkError Bool
  DeleteAction : DB → Int → Int → DB × Option SdkError

/-- What a handler does that can be observed: its calls to package `action` and
the response it writes. -/
inductive ApiEvent where
  | LoadPublicAction (name : GoString)
  | Used (id : Int)
  | DeleteAction (id userID : Int)
  | WriteError (err : SdkError)
  deriving DecidableEq, Repr

/-- The outcome of a handler: the database it leaves and the events it produced. -/
structure Handled (DB : Type) where
  db : DB
  events : List ApiEvent

/-- Go `deleteActionHandler`, for the action name `name` of the URL and the user
id `userID` of the context (log lines left out). -/
def deleteActionHandler {DB : Type} (st : ActionStore DB) (db : DB) (name : GoString)
    (userID : Int) : Handled DB :=
  match st.LoadPublicAction db name with
  | .error errLoad =>
    ⟨db, [.LoadPublicAction name, .WriteError errLoad]⟩
  | .ok a =>
    match st.Used db a.ID with
    | .error errUsed =>
      ⟨db, [.LoadPublicAction name, .Used a.ID, .WriteError errUsed]⟩
    | .ok used =>
      if used then
        ⟨db, [.LoadPublicAction name, .Used a.ID, .WriteError .ErrForbidden]⟩
      else
        match st.DeleteAction db a.ID userID with
        | (db2, some err) =>
          ⟨db2, [.LoadPublicAction name, .Used a.ID, .DeleteAction a.ID userID, .WriteError err]⟩
        | (db2, none) =>
          ⟨db2, [.LoadPublicAction name, .Used a.ID, .DeleteAction a.ID userID]⟩

/-- A catalog held as a list of public actions, with the ids of the actions used
in pipelines: an action is loaded by name, is used when its id is listed, and is
deleted by removing it from the list. -/
def listStore (usedIDs : List Int) : ActionStore (List Action) where
  LoadPublicAction := fun db name =>
    match db.find? (fun a => a.Name = name) with
    | some a => .ok a
    | none => .error .ErrNoAction
  Used := fun _ id => .ok (usedIDs.contains id)
  DeleteAction := fun db id _ => (db.filter (fun a => a.ID ≠ id), none)

/-- A catalog of two actions, `Script` (id 1) and `Deploy` (id 2). -/
def demoCatalog : List Action :=
  [⟨1, "Script".toList, "Builtin".toList, true⟩, ⟨2, "Deploy".toList, "Default".toList, true⟩]

/-! ## `addActionHandler` and `importActionHandler` (engine/api/action.go) -/

/-- Modelled from the spec: `sdk.DefaultAction`, the action type given to actions
created through the API, declared in package `sdk` outside the inspected
sources. -/
def DefaultAction : GoString := "Default".toList

/-- The operations of package `action` and of the database handle that the add
and import handlers call, on a database state of type `DB`.  A transaction is a
working state: `Begin` gives the state the transaction starts from, the writes
return the working state they leave, the action as they leave it behind the
pointer, and their Go `error`, if any, and `Commit` gives the database that the
working state becomes. -/
structure ActionTx (DB : Type) where
  Exists : DB → GoString → Except SdkError Bool
  Begin : DB → Except SdkError DB
  LoadPublicAction : DB → GoString → Except SdkError Action
  InsertAction : DB → Action → Bool → DB × Action × Option SdkError
  UpdateActionDB : DB → Action → Int → DB × Action × Option SdkError
  Commit : DB → Except SdkError DB

/-- What the add and import handlers do that can be observed: their calls to
package `action` and to the transaction, and the responses they write. -/
inductive TxEvent where
  | Exists (name : GoString)
  | Begin
  | LoadPublicAction (name : GoString)
  | InsertAction (a : Action) (isPublic : Bool)
  | UpdateActionDB (a : Action) (userID : Int)
  | Commit
  | Rollback
  | WriteError (err : SdkError)
  | WriteHeader (code : Nat)
  | WriteJSON (a : Action) (code : Nat)
  deriving DecidableEq, Repr

/-- The outcome of an add or import handler: the database it leaves and the
events it produced. -/
structure TxHandled (DB : Type) where
  db : DB
  events : List TxEvent

/-- Go `addActionHandler` (log lines left out).  `body` is what
`ioutil.ReadAll(r.Body)` gives (`none` for a read error) and `FromJSON` stands
for `sdk.NewAction("").FromJSON` (`none` for a decoding error).  The deferred
`tx.Rollback()` is the last event of every path on which the transaction was
begun. -/
def addActionHandler {DB : Type} (st : ActionTx DB) (FromJSON : GoString → Option Action)
    (db : DB) (body : Option GoString) : TxHandled DB :=
  match body with
  | none => ⟨db, [.WriteError .ErrWrongRequest]⟩
  | some data =>
    match FromJSON data with
    | none => ⟨db, [.WriteError .ErrWrongRequest]⟩
    | some a =>
      -- Check that action does not already exists
      match st.Exists db a.Name with
      | .error errConflict => ⟨db, [.Exists a.Name, .WriteError errConflict]⟩
      | .ok conflict =>
        let checked : List TxEvent :=
          if conflict then [.Exists a.Name, .WriteError .ErrConflict] else [.Exists a.Name]
        match st.Begin db with
        | .error errDB => ⟨db, checked ++ [.Begin, .WriteError errDB]⟩
        | .ok tx =>
          let a : Action := { a with Type_ := DefaultAction }
          match st.InsertAction tx a true with
          | (_, _, some err) =>
            ⟨db, checked ++ [.Begin, .InsertAction a true, .WriteError err, .Rollback]⟩
          | (tx, _, none) =>
            match st.Commit tx with
            | .error err =>
              ⟨db, checked ++ [.Begin, .InsertAction a true, .Commit, .WriteError err, .Rollback]⟩
            | .ok db2 =>
              ⟨db2, checked ++ [.Begin, .InsertAction a true, .Commit, .WriteHeader 201, .Rollback]⟩

/-- The parts of an import request that `importActionHandler` reads: the `url`
form value, the `content-type` header, the uploaded file (`r.FormFile` and then
`ioutil.ReadAll`, each with its Go `error`), and the body (`none` for a read
error). -/
structure ImportRequest where
  url : GoString
  contentType : GoString
  uploadFile : Except SdkError (Except SdkError GoString)
  body : Option GoString

/-- The decoders of package `sdk` that `importActionHandler` calls; each gives an
action pointer, which may be nil, or a Go `error`. -/
structure ActionDecoders where
  NewActionFromRemoteScript : GoString → Except SdkError (Option Action)
  NewActionFromScript : GoString → Except SdkError (Option Action)
  FromJSON : GoString → Except SdkError (Option Action)

/-- Lines 309-349 of `importActionHandler`: the action is loaded from the url, from
the uploaded file, or from the json body; `Except.error` carries the error that
is written before the handler returns. -/
def decodeImport (dec : ActionDecoders) (req : ImportRequest) : Except SdkError (Option Action) :=
  if req.url ≠ [] then
    dec.NewActionFromRemoteScript req.url
  else if req.contentType = "multipart/form-data".toList then
    match req.uploadFile with
    | .error _ => .error .ErrWrongRequest
    | .ok (.error errRead) => .error errRead
    | .ok (.ok btes) => dec.NewActionFromScript btes
  else
    match req.body with
    | none => .error .ErrWrongRequest
    | some btes =>
      match dec.FromJSON btes with
      | .error _ => .error .ErrWrongRequest
      | .ok a => .ok a

/-- Lines 392-397 of `importActionHandler`: commit the transaction and write the
action with the status code; `before` are the events produced so far. -/
def commitAndWrite {DB : Type} (st : ActionTx DB) (db tx : DB) (before : List TxEvent)
    (a : Action) (code : Nat) : TxHandled DB :=
  match st.Commit tx with
  | .error err => ⟨db, before ++ [.Commit, .WriteError err, .Rollback]⟩
  | .ok db2 => ⟨db2, before ++ [.Commit, .WriteJSON a code, .Rollback]⟩

/-- Go `importActionHandler`, insert OR update an existing action, for the user id
`userID` of the context. -/
def importActionHandler {DB : Type} (st : ActionTx DB) (dec : ActionDecoders) (db : DB)
    (req : ImportRequest) (userID : Int) : TxHandled DB :=
  match decodeImport dec req with
  | .error err => ⟨db, [.WriteError err]⟩
  | .ok none => ⟨db, [.WriteError .ErrWrongRequest]⟩
  | .ok (some a) =>
    match st.Begin db with
    | .error err => ⟨db, [.Begin, .WriteError err]⟩
    | .ok tx =>
      -- Check if action exists
      match st.LoadPublicAction tx a.Name with
      | .ok existingAction =>
        let a : Action := { a with ID := existingAction.ID }
        match st.UpdateActionDB tx a userID with
        | (_, _, some err) =>
          ⟨db, [.Begin, .LoadPublicAction a.Name, .UpdateActionDB a userID, .WriteError err,
                .Rollback]⟩
        | (tx, a2, none) =>
          commitAndWrite st db tx
            [.Begin, .LoadPublicAction a.Name, .UpdateActionDB a userID] a2 200
      | .error _ =>
        let a : Action := { a with Enabled := true, Type_ := DefaultAction }
        match st.InsertAction tx a true with
        | (_, _, some err) =>
          ⟨db, [.Begin, .LoadPublicAction a.Name, .InsertAction a true, .WriteError err,
                .Rollback]⟩
        | (tx, a2, none) =>
          commitAndWrite st db tx
            [.Begin, .LoadPublicAction a.Name, .InsertAction a true] a2 201

/-- The requests an import handler run has written to the catalog as inserts. -/
def insertsOf : List TxEvent → List Action
  | [] => []
  | .InsertAction a _ :: es => a :: insertsOf es
  | _ :: es => insertsOf es

/-- The actions an import handler run has passed to `UpdateActionDB`. -/
def updatesOf : List TxEvent → List Action
  | [] => []
  | .UpdateActionDB a _ :: es => a :: updatesOf es
  | _ :: es => updatesOf es

/-- The responses a handler run has written. -/
def responsesOf : List TxEvent → List TxEvent
  | [] => []
  | .WriteError err :: es => .WriteError err :: responsesOf es
  | .WriteHeader code :: es => .WriteHeader code :: responsesOf es
  | .WriteJSON a code :: es => .WriteJSON a code :: responsesOf es
  | _ :: es => responsesOf es

/-- A catalog held as a list of public actions with unique names: an action
exists and is loaded by name, is inserted at the end with the next id unless its
name is taken, is updated by replacing the action of the same id, and a
transaction is a copy of the list that `Commit` puts in place. -/
def listTx : ActionTx (List Action) where
  Exists := fun db name => .ok (db.any (fun a => a.Name = name))
  Begin := fun db => .ok db
  LoadPublicAction := fun tx name =>
    match tx.find? (fun a => a.Name = name) with
    | some a => .ok a
    | none => .error .ErrNoAction
  InsertAction := fun tx a _ =>
    if tx.any (fun b => b.Name = a.Name) then
      (tx, a, some (.other "duplicate key value violates unique constraint".toList))
    else
      (tx ++ [{ a with ID := (tx.length : Int) + 1 }], { a with ID := (tx.length : Int) + 1 }, none)
  UpdateActionDB := fun tx a _ =>
    (tx.map (fun b => if b.ID = a.ID then a else b), a, none)
  Commit := fun tx => .ok tx

/-- A json decoder that reads the body as the name of an enabled action. -/
def nameDecoder : GoString → Option Action :=
  fun data => some ⟨0, data, [], true⟩

/-- Decoders that read the url, the file or the body as the name of a disabled
action with no type. -/
def nameDecoders : ActionDecoders where
  NewActionFromRemoteScript := fun data => .ok (some ⟨0, data, [], false⟩)
  NewActionFromScript := fun data => .ok (some ⟨0, data, [], false⟩)
  FromJSON := fun data => .ok (some ⟨0, data, [], false⟩)

/-- An import request with a json body. -/
def jsonRequest (body : String) : ImportRequest :=
  { url := [], contentType := "application/json".toList,
    uploadFile := .error .ErrWrongRequest, body := some body.toList }

/-- The catalog `listTx` without the unique index on the name: an insert always
succeeds. -/
def bagTx : ActionTx (List Action) :=
  { listTx with
    InsertAction := fun tx a _ =>
      (tx ++ [{ a with ID := (tx.length : Int) + 1 }],
       { a with ID := (tx.length : Int) + 1 }, none) }

/-! ## Groups (engine/api/group/group.go) -/

/-- Modelled from the spec: `sdk.Group`, of which `group.go` reads or writes `ID`
and `Name`. -/
structure Group where
  ID : Int
  Name : GoString
  deriving DecidableEq, Repr

/-- The errors of the database handle: `sql.ErrNoRows`, and the errors with which
the server or `Scan` refuse a statement. -/
inductive DbError where
  | ErrNoRows
  | invalidTextRepresentation
  | uniqueViolation
  | wrongArguments
  | scanError
  deriving DecidableEq, Repr

/-- The Go `error` values `group.go` returns: the errors of package `sdk` it names
(declared outside the inspected sources), or the error of the database handle,
passed through. -/
inductive GroupError where
  | ErrGroupNotFound
  | ErrGroupExists
  | ErrInvalidGroupPattern
  | ErrNotEnoughAdmin
  | db (err : DbError)
  deriving DecidableEq, Repr

/-- A row of table `group`. -/
structure GroupRow where
  id : Int
  name : GoString
  deriving DecidableEq, Repr

/-- A row of table `group_user`. -/
structure GroupUserRow where
  id : Int
  group_id : Int
  user_id : Int
  group_admin : Bool
  deriving DecidableEq, Repr

/-- The database state `group.go` works on: the tables `group` and `group_user`,
and the last value of the sequence that assigns `"group".id`.  The schema is
outside the inspected sources; statements fail only for reasons this state and
their arguments show, never for a lost connection. -/
structure Database where
  group : List GroupRow
  group_user : List GroupUserRow
  group_id_seq : Int
  deriving DecidableEq, Repr

/-- A statement argument or a column value. -/
inductive SqlValue where
  | int (i : Int)
  | text (s : GoString)
  | bool (b : Bool)
  deriving DecidableEq, Repr

/-- The statements of `group.go` that the modelled functions send, one constructor
for each SQL text. -/
inductive Statement where
  /-- `SELECT id FROM "group" WHERE "group".name = $1` -/
  | selectGroupIdByName
  /-- `SELECT "group".id FROM "group" WHERE "group".id = $1` -/
  | selectGroupIdById
  /-- `SELECT group_admin FROM "group_user" WHERE group_id = $1 AND user_id = $2` -/
  | selectGroupAdmin
  /-- `SELECT COUNT(id) FROM "group_user" WHERE group_id = $1 AND group_admin = true` -/
  | countGroupAdmins
  /-- `INSERT INTO "group" (name) VALUES($1) RETURNING id` -/
  | insertGroup
  /-- `DELETE FROM group_user WHERE group_id=$1 AND user_id=$2` -/
  | deleteGroupUser
  deriving DecidableEq, Repr

/-- The value of a run of decimal digits, most significant first, continuing from
`acc`; `none` if a character is not a digit. -/
def parseDigits : GoString → Nat → Option Nat
  | [], acc => some acc
  | c :: cs, acc =>
    if '0' ≤ c ∧ c ≤ '9' then parseDigits cs (acc * 10 + (c.toNat - '0'.toNat)) else none

/-- The integer a text argument stands for when it is compared with an integer
column: an optional sign and at least one decimal digit; `none` otherwise, in
particular for the empty text. -/
def parseBigint : GoString → Option Int
  | [] => none
  | '-' :: cs => if cs = [] then none else (parseDigits cs 0).map (fun n => -(n : Int))
  | '+' :: cs => if cs = [] then none else (parseDigits cs 0).map (fun n => (n : Int))
  | cs => (parseDigits cs 0).map (fun n => (n : Int))

/-- An argument bound to an integer column: an integer as it is, a text if it
reads as an integer, and `invalid input syntax` otherwise. -/
def asBigint : SqlValue → Except DbError Int
  | .int i => .ok i
  | .text s =>
    match parseBigint s with
    | some i => .ok i
    | none => .error .invalidTextRepresentation
  | .bool _ => .error .wrongArguments

/-- An argument bound to a text column. -/
def asText : SqlValue → Except DbError GoString
  | .text s => .ok s
  | _ => .error .wrongArguments

/-- The server's answer to a statement: the database it leaves, and the rows of
the result or an error.  `"group".name` carries a unique index (the
`idx_group_name` that `UpdateGroup` looks for), and a sequence value is consumed by
every insert that is attempted. -/
def Database.run (db : Database) (stmt : Statement) (args : List SqlValue) :
    Database × Except DbError (List (List SqlValue)) :=
  match stmt, args with
  | .selectGroupIdByName, [a1] =>
    match asText a1 with
    | .error e => (db, .error e)
    | .ok name =>
      (db, .ok ((db.group.filter (fun r => r.name = name)).map (fun r => [.int r.id])))
  | .selectGroupIdById, [a1] =>
    match asBigint a1 with
    | .error e => (db, .error e)
    | .ok id =>
      (db, .ok ((db.group.filter (fun r => r.id = id)).map (fun r => [.int r.id])))
  | .selectGroupAdmin, [a1, a2] =>
    match asBigint a1, asBigint a2 with
    | .ok g, .ok u =>
      (db, .ok ((db.group_user.filter (fun r => r.group_id = g ∧ r.user_id = u)).map
        (fun r => [.bool r.group_admin])))
    | .error e, _ => (db, .error e)
    | _, .error e => (db, .error e)
  | .countGroupAdmins, [a1] =>
    match asBigint a1 with
    | .error e => (db, .error e)
    | .ok g =>
      (db, .ok [[.int ((db.group_user.filter
        (fun r => r.group_id = g ∧ r.group_admin = true)).length : Int)]])
  | .insertGroup, [a1] =>
    match asText a1 with
    | .error e => (db, .error e)
    | .ok name =>
      if db.group.any (fun r => r.name = name) then
        ({ db with group_id_seq := db.group_id_seq + 1 }, .error .uniqueViolation)
      else
        ({ db with group := db.group ++ [⟨db.group_id_seq + 1, name⟩],
                   group_id_seq := db.group_id_seq + 1 },
         .ok [[.int (db.group_id_seq + 1)]])
  | .deleteGroupUser, [a1, a2] =>
    match asBigint a1, asBigint a2 with
    | .ok g, .ok u =>
      ({ db with group_user := db.group_user.filter (fun r => ¬ (r.group_id = g ∧ r.user_id = u)) },
       .ok [])
    | .error e, _ => (db, .error e)
    | _, .error e => (db, .error e)
  | _, _ => (db, .error .wrongArguments)

/-- Go `Scan(&v)` into an `int64` or `int` variable. -/
def scanInt : List SqlValue → Except DbError Int
  | [.int i] => .ok i
  | _ => .error .scanError

/-- Go `Scan(&v)` into a `bool` variable. -/
def scanBool : List SqlValue → Except DbError Bool
  | [.bool b] => .ok b
  | _ => .error .scanError

/-- Go `db.QueryRow(stmt, args...)` up to the row that `Scan` reads: the first row
of the result, the error of the statement, or `sql.ErrNoRows`. -/
def Database.QueryRow (db : Database) (stmt : Statement) (args : List SqlValue) :
    Database × Except DbError (List SqlValue) :=
  match db.run stmt args with
  | (db2, .error e) => (db2, .error e)
  | (db2, .ok []) => (db2, .error .ErrNoRows)
  | (db2, .ok (row :: _)) => (db2, .ok row)

/-- What a call of a function of `group.go` leaves: the database, the statements
it has sent, and its return value. -/
structure DbCall (α : Type) where
  db : Database
  sent : List (Statement × List SqlValue)
  value : α

/-- Go `LoadGroup`: retrieves group informations from database. -/
def LoadGroup (db : Database) (name : GoString) : Except GroupError Group :=
  match (db.QueryRow .selectGroupIdByName [.text name]).2.bind scanInt with
  | .error err =>
    if err = .ErrNoRows then .error .ErrGroupNotFound else .error (.db err)
  | .ok groupID => .ok { ID := groupID, Name := name }

/-- Go `LoadGroupByID`: retrieves group informations from database.  The local
`name` is declared and never assigned; it is the argument of the statement and
the name of the group returned, and `Scan` writes the column into `id`. -/
def LoadGroupByID (db : Database) (id : Int) : Except GroupError Group :=
  let name : GoString := []
  match (db.QueryRow .selectGroupIdById [.text name]).2.bind scanInt with
  | .error err =>
    if err = .ErrNoRows then .error .ErrGroupNotFound else .error (.db err)
  | .ok id => .ok { ID := id, Name := name }

/-- Go `InsertGroup`: insert given group into given database; the group comes back
with the `ID` that `Scan` has written. -/
def InsertGroup (db : Database) (g : Group) : Database × Group × Option DbError :=
  match db.QueryRow .insertGroup [.text g.Name] with
  | (db2, .error err) => (db2, g, some err)
  | (db2, .ok row) =>
    match scanInt row with
    | .error err => (db2, g, some err)
    | .ok id => (db2, { g with ID := id }, none)

/-- Go `AddGroup`: creates a new group in database.  `matchString` stands for
`regexp.MustCompile(sdk.NamePattern).MatchString`, the pattern being declared
outside the inspected sources. -/
def AddGroup (matchString : GoString → Bool) (db : Database) (group : Group) :
    DbCall (Int × Bool × Option GroupError) :=
  -- check projectKey pattern
  if ¬ matchString group.Name then
    ⟨db, [], (0, false, some .ErrInvalidGroupPattern)⟩
  else
    -- Check that group does not already exists
    match db.run .selectGroupIdByName [.text group.Name] with
    | (db1, .error err) =>
      ⟨db1, [(.selectGroupIdByName, [.text group.Name])], (0, false, some (.db err))⟩
    | (db1, .ok (row :: _)) =>
      match scanInt row with
      | .error _ =>
        ⟨db1, [(.selectGroupIdByName, [.text group.Name])], (0, false, some .ErrGroupExists)⟩
      | .ok groupID =>
        ⟨db1, [(.selectGroupIdByName, [.text group.Name])],
          (groupID, false, some .ErrGroupExists)⟩
    | (db1, .ok []) =>
      match InsertGroup db1 group with
      | (db2, _, some err) =>
        ⟨db2, [(.selectGroupIdByName, [.text group.Name]), (.insertGroup, [.text group.Name])],
          (0, false, some (.db err))⟩
      | (db2, group2, none) =>
        ⟨db2, [(.selectGroupIdByName, [.text group.Name]), (.insertGroup, [.text group.Name])],
          (group2.ID, true, none)⟩

/-- Go `DeleteUserFromGroup`: remove user from group. -/
def DeleteUserFromGroup (db : Database) (groupID userID : Int) : DbCall (Option GroupError) :=
  -- Check if there are admin left
  match (db.QueryRow .selectGroupAdmin [.int groupID, .int userID]).2.bind scanBool with
  | .error err => ⟨db, [(.selectGroupAdmin, [.int groupID, .int userID])], some (.db err)⟩
  | .ok isAdm =>
    let remove (sent : List (Statement × List SqlValue)) : DbCall (Option GroupError) :=
      match db.run .deleteGroupUser [.int groupID, .int userID] with
      | (db2, .error err) =>
        ⟨db2, sent ++ [(.deleteGroupUser, [.int groupID, .int userID])], some (.db err)⟩
      | (db2, .ok _) =>
        ⟨db2, sent ++ [(.deleteGroupUser, [.int groupID, .int userID])], none⟩
    if isAdm then
      match (db.QueryRow .countGroupAdmins [.int groupID]).2.bind scanInt with
      | .error err =>
        ⟨db, [(.selectGroupAdmin, [.int groupID, .int userID]),
              (.countGroupAdmins, [.int groupID])], some (.db err)⟩
      | .ok nbAdm =>
        if nbAdm ≤ 1 then
          ⟨db, [(.selectGroupAdmin, [.int groupID, .int userID]),
                (.countGroupAdmins, [.int groupID])], some .ErrNotEnoughAdmin⟩
        else
          remove [(.selectGroupAdmin, [.int groupID, .int userID]),
                  (.countGroupAdmins, [.int groupID])]
    else
      remove [(.selectGroupAdmin, [.int groupID, .int userID])]

/-- The admin rows of a group in table `group_user`. -/
def adminsOf (db : Database) (groupID : Int) : List GroupUserRow :=
  db.group_user.filter (fun r => r.group_id = groupID ∧ r.group_admin = true)

/-- Table `group_user` holds at most one row for a group and a user, as
`CheckUserInGroup` expects when it tests `nb == 1`. -/
def uniqueMembership (db : Database) : Prop :=
  db.group_user.Pairwise (fun r s => ¬ (r.group_id = s.group_id ∧ r.user_id = s.user_id))

instance (db : Database) : Decidable (uniqueMembership db) := by
  unfold uniqueMembership
  infer_instance

/-- A database with the groups `dev` (id 1) and `ops` (id 2), where user 10 is
the only admin of `dev`, user 11 a plain member of `dev`, and users 10 and 12
the admins of `ops`. -/
def demoDatabase : Database :=
  { group := [⟨1, "dev".toList⟩, ⟨2, "ops".toList⟩]
    group_user := [⟨1, 1, 10, true⟩, ⟨2, 1, 11, false⟩, ⟨3, 2, 10, true⟩, ⟨4, 2, 12, true⟩]
    group_id_seq := 2 }

/-- A name pattern that accepts the non-empty names without a space. -/
def demoPattern : GoString → Bool :=
  fun name => name ≠ [] ∧ ' ' ∉ name

/-! ## Lemmas on processes -/

namespace Proc

@[simp] theorem pure_trace {α : Type} (a : α) : (pure a : Proc α).trace = [] := rfl

@[simp] theorem pure_result {α : Type} (a : α) : (pure a : Proc α).result = .ok a := rfl

@[simp] theorem pure_bind {α β : Type} (a : α) (f : α → Proc β) :
    (pure a : Proc α) >>= f = f a := rfl

@[simp] theorem mk_ok_bind {α β : Type} (tr : List Event) (a : α) (f : α → Proc β) :
    (Proc.mk tr (.ok a)) >>= f = prepend tr (f a) := rfl

@[simp] theorem mk_error_bind {α β : Type} (tr : List Event) (e : ExitMsg) (f : α → Proc β) :
    (Proc.mk tr (.error e) : Proc α) >>= f = ⟨tr, .error e⟩ := rfl

@[simp] theorem exit_bind {α β : Type} (e : ExitMsg) (f : α → Proc β) :
    (Exit e : Proc α) >>= f = Exit e := rfl

@[simp] theorem emit_bind {β : Type} (e : Event) (f : Unit → Proc β) :
    emit e >>= f = prepend [e] (f ()) := rfl

@[simp] theorem call_bind {α β : Type} (e : Event) (ans : Except GoString α)
    (f : Except GoString α → Proc β) :
    call e ans >>= f = prepend [e] (f ans) := rfl

@[simp] theorem prepend_trace {α : Type} (tr : List Event) (p : Proc α) :
    (prepend tr p).trace = tr ++ p.trace := rfl

@[simp] theorem prepend_result {α : Type} (tr : List Event) (p : Proc α) :
    (prepend tr p).result = p.result := rfl

@[simp] theorem prepend_mk {α : Type} (tr tr2 : List Event) (r : Except ExitMsg α) :
    prepend tr (Proc.mk tr2 r) = ⟨tr ++ tr2, r⟩ := rfl

@[simp] theorem prepend_pure {α : Type} (tr : List Event) (a : α) :
    prepend tr (pure a : Proc α) = ⟨tr, .ok a⟩ := by
  simp [prepend]

@[simp] theorem prepend_exit {α : Type} (tr : List Event) (e : ExitMsg) :
    prepend tr (Exit e : Proc α) = ⟨tr, .error e⟩ := by
  simp [prepend, Exit]

@[simp] theorem prepend_prepend {α : Type} (tr tr2 : List Event) (p : Proc α) :
    prepend tr (prepend tr2 p) = prepend (tr ++ tr2) p := by
  simp [prepend]

@[simp] theorem prepend_bind {α β : Type} (tr : List Event) (p : Proc α) (f : α → Proc β) :
    prepend tr p >>= f = prepend tr (p >>= f) := by
  show Proc.bind (prepend tr p) f = prepend tr (Proc.bind p f)
  unfold Proc.bind
  cases h : p.result <;> simp [prepend, h]

@[simp] theorem exit_trace {α : Type} (e : ExitMsg) : (Exit e : Proc α).trace = [] := rfl

@[simp] theorem exit_result {α : Type} (e : ExitMsg) : (Exit e : Proc α).result = .error e := rfl

end Proc

/-! ## Lemmas on the `strings` functions -/

@[simp] theorem elemAt_cons_zero (x : GoString) (xs : List GoString) :
    elemAt (x :: xs) 0 = x := rfl

@[simp] theorem elemAt_cons_one (x y : GoString) (xs : List GoString) :
    elemAt (x :: y :: xs) 1 = y := rfl

@[simp] theorem elemAt_cons_two (x y z : GoString) (xs : List GoString) :
    elemAt (x :: y :: z :: xs) 2 = z := rfl

@[simp] theorem envNameOf_three (x y z : GoString) :
    envNameOf [x, y, z] = [] := rfl

@[simp] theorem envNameOf_four (x y z e : GoString) (xs : List GoString) :
    envNameOf (x :: y :: z :: e :: xs) = e := by
  simp [envNameOf, elemAt]

theorem HasPrefix_single (c : Char) (s : GoString) :
    HasPrefix s [c] = (s.head? == some c) := by
  cases s with
  | nil => rfl
  | cons d s => cases s <;> simp [HasPrefix]

theorem Index_single (c : Char) (s : GoString) :
    Index s [c] = if c ∈ s then some (s.takeWhile (· ≠ c)).length else none := by
  induction s with
  | nil => simp [Index, HasPrefix]
  | cons d s ih =>
    by_cases h : d = c
    · subst h
      simp [Index, HasPrefix_single]
    · have h2 : ¬ c = d := fun e => h e.symm
      simp only [Index, HasPrefix_single, ih]
      by_cases hc : c ∈ s <;> simp [h, h2, hc, List.takeWhile]

theorem take_length_takeWhile (p : Char → Bool) (s : GoString) :
    s.take (s.takeWhile p).length = s.takeWhile p := by
  induction s with
  | nil => rfl
  | cons d s ih => by_cases h : p d <;> simp [List.takeWhile, h, ih]

theorem drop_length_takeWhile (p : Char → Bool) (s : GoString) :
    s.drop (s.takeWhile p).length = s.dropWhile p := by
  induction s with
  | nil => rfl
  | cons d s ih => by_cases h : p d <;> simp [List.takeWhile, List.dropWhile, h, ih]

/-- An entry with an `=` is cut by `SplitN(elt, "=", 2)` into the text before the
first `=` and the text after it. -/
theorem SplitN_eq_of_mem (elt : GoString) (h : '=' ∈ elt) :
    SplitN elt ['='] 2 =
      [elt.takeWhile (· ≠ '='), (elt.dropWhile (· ≠ '=')).drop 1] := by
  have hlen : ¬ (2 > elt.length + 1) := by
    cases elt with
    | nil => simp at h
    | cons d s => simp
  have h2 : (2 : Int).toNat = 2 := rfl
  simp only [SplitN, genSplit, h2]
  simp [hlen, genSplitLoop, Index_single, h, take_length_takeWhile, ← drop_length_takeWhile]

/-- An entry without `=` is returned whole by `SplitN(elt, "=", 2)`. -/
theorem SplitN_eq_of_not_mem (elt : GoString) (h : '=' ∉ elt) :
    SplitN elt ['='] 2 = [elt] := by
  have h2 : (2 : Int).toNat = 2 := rfl
  simp only [SplitN, genSplit, h2]
  by_cases hlen : 2 > elt.length + 1
  · have h0 : elt = [] := by
      cases elt with
      | nil => rfl
      | cons d s => simp only [List.length_cons] at hlen; omega
    subst h0
    simp [genSplitLoop]
  · simp [hlen, genSplitLoop, Index_single, h]

/-- The parameter loop on well-formed entries. -/
theorem parseParameters_of_mem (pipelineArgs : List GoString)
    (h : ∀ elt ∈ pipelineArgs, '=' ∈ elt) (params : List Parameter) :
    parseParameters pipelineArgs params = pure (params ++ pipelineArgs.map specParameter) := by
  induction pipelineArgs generalizing params with
  | nil => simp [parseParameters]
  | cons elt rest ih =>
    have h1 : '=' ∈ elt := h elt (by simp)
    have h2 : ∀ e ∈ rest, '=' ∈ e := fun e he => h e (by simp [he])
    simp [parseParameters, SplitN_eq_of_mem elt h1, ih h2, specParameter]

/-- The parameter loop stops at the first entry without `=`, with an empty trace. -/
theorem parseParameters_of_not_mem (pipelineArgs : List GoString)
    (h : ∃ elt ∈ pipelineArgs, '=' ∉ elt) (params : List Parameter) :
    ∃ elt ∈ pipelineArgs, '=' ∉ elt ∧
      parseParameters pipelineArgs params = Exit (.malformedParameter elt) := by
  induction pipelineArgs generalizing params with
  | nil => simp at h
  | cons elt rest ih =>
    by_cases h1 : '=' ∈ elt
    · have h2 : ∃ e ∈ rest, '=' ∉ e := by
        obtain ⟨e, he, hne⟩ := h
        rcases List.mem_cons.mp he with rfl | he2
        · exact absurd h1 hne
        · exact ⟨e, he2, hne⟩
      obtain ⟨e, he, hne, heq⟩ := ih h2 (params ++ [specParameter elt])
      refine ⟨e, by simp [he], hne, ?_⟩
      simp [parseParameters, SplitN_eq_of_mem elt h1]
      simpa [specParameter] using heq
    · exact ⟨elt, by simp, h1, by simp [parseParameters, SplitN_eq_of_not_mem elt h1]⟩

theorem specParameter_split (elt : GoString) (h : '=' ∈ elt) :
    elt = (specParameter elt).Name ++ '=' :: (specParameter elt).Value
      ∧ '=' ∉ (specParameter elt).Name := by
  constructor
  · induction elt with
    | nil => simp at h
    | cons d s ih =>
      by_cases hd : d = '='
      · simp [specParameter, List.takeWhile, List.dropWhile, hd]
      · have hs : '=' ∈ s := by
          rcases List.mem_cons.mp h with h1 | h1
          · exact absurd h1.symm hd
          · exact h1
        have := ih hs
        simp only [specParameter] at this
        simp only [specParameter, List.takeWhile, List.dropWhile, hd, ne_eq, not_false_eq_true,
          decide_True, List.cons_append, List.cons.injEq, true_and]
        exact this
  · intro hmem
    have := List.mem_takeWhile_imp hmem
    simp at this

/-! ## Lemmas on `runPipeline` -/

theorem runPipeline_eq (sdk : Sdk) (fl : Flags) (projectKey appName name : GoString)
    (rest : List GoString) :
    runPipeline sdk fl (projectKey :: appName :: name :: rest) =
      resolveParent sdk fl projectKey appName name (envNameOf (projectKey :: appName :: name :: rest))
        >>= fun pv => parseParameters fl.cmdPipelineRunArguments pv.params
        >>= fun params => submitRun sdk fl projectKey appName name
              (envNameOf (projectKey :: appName :: name :: rest)) pv params := by
  simp [runPipeline]

theorem submitted_append (xs ys : List Event) :
    submitted (xs ++ ys) = submitted xs ++ submitted ys := by
  induction xs with
  | nil => rfl
  | cons e es ih => cases e <;> simp [submitted, ih]

theorem submitted_streamLoop (ch : List Log) : submitted (streamLoop ch).trace = [] := by
  induction ch with
  | nil => rfl
  | cons l ch ih =>
    simp only [streamLoop]
    split <;> simp [submitted, ih]

theorem submitted_streamResponse (ch : List Log) :
    submitted (streamResponse ch).trace = [] := by
  simp [streamResponse, submitted, submitted_streamLoop]

/-- The last step submits exactly one run request, the one built from its
arguments. -/
theorem submitted_submitRun (sdk : Sdk) (fl : Flags) (k a n e : GoString) (pv : ParentVars)
    (params : List Parameter) :
    submitted (submitRun sdk fl k a n e pv params).trace =
      [{ Params := params, ParentBuildNumber := pv.parentBuildNumber,
         ParentPipelineID := pv.ppipID, ParentApplicationID := pv.pappID,
         ParentEnvironmentID := pv.penvID }] := by
  simp only [submitRun]
  simp
  split
  · simp [submitted]
  · split <;> simp [submitted, submitted_streamResponse, submitted_streamLoop]

theorem resolveParent_of_nil (sdk : Sdk) (fl : Flags) (k a n e : GoString)
    (hp : fl.parentInfo = []) :
    resolveParent sdk fl k a n e =
      pure { params := [], parentBuildNumber := fl.parentBuildNumber,
             ppipID := 0, pappID := 0, penvID := 0 } := by
  simp [resolveParent, hp]

theorem resolveParent_of_bad (sdk : Sdk) (fl : Flags) (k a n e : GoString)
    (hp : fl.parentInfo ≠ [])
    (hlen : (segments fl.parentInfo).length < 2 ∨ (segments fl.parentInfo).length > 3) :
    resolveParent sdk fl k a n e = Exit .parentInfoFormat := by
  simp [resolveParent, hp, hlen]

theorem resolveParent_good_head (sdk : Sdk) (fl : Flags) (k a n e : GoString)
    (hp : fl.parentInfo ≠ [])
    (hlen : ¬ ((segments fl.parentInfo).length < 2 ∨ (segments fl.parentInfo).length > 3)) :
    (resolveParent sdk fl k a n e).trace.head? =
      some (.GetApplication k (elemAt (segments fl.parentInfo) 0)) := by
  simp [resolveParent, hp, hlen]

theorem resolveParent_good_result (sdk : Sdk) (fl : Flags) (k a n e : GoString)
    (hp : fl.parentInfo ≠ [])
    (hlen : ¬ ((segments fl.parentInfo).length < 2 ∨ (segments fl.parentInfo).length > 3)) :
    (resolveParent sdk fl k a n e).result ≠ .error .parentInfoFormat := by
  simp only [resolveParent]
  simp [hp, hlen]
  repeat' split
  all_goals simp

/-- The parent block submits no run request. -/
theorem submitted_resolveParent (sdk : Sdk) (fl : Flags) (k a n e : GoString) :
    submitted (resolveParent sdk fl k a n e).trace = [] := by
  simp only [resolveParent]
  simp
  repeat' split
  all_goals simp [submitted]

theorem parseParameters_result (pipelineArgs : List GoString) (params : List Parameter)
    (e : ExitMsg) (h : (parseParameters pipelineArgs params).result = .error e) :
    ∃ elt, e = .malformedParameter elt := by
  induction pipelineArgs generalizing params with
  | nil => simp [parseParameters] at h
  | cons elt rest ih =>
    simp only [parseParameters] at h
    split at h
    · exact ih _ h
    · exact ⟨elt, by simpa [Exit] using h.symm⟩

theorem streamLoop_result (ch : List Log) :
    (streamLoop ch).result = .ok () ∨ (streamLoop ch).result = .error .pipelineFail := by
  induction ch with
  | nil => exact Or.inl rfl
  | cons l ch ih =>
    simp only [streamLoop]
    split <;> simp [ih]

theorem streamResponse_result (ch : List Log) :
    (streamResponse ch).result = .ok () ∨ (streamResponse ch).result = .error .pipelineFail := by
  simpa [streamResponse] using streamLoop_result ch

theorem submitRun_result (sdk : Sdk) (fl : Flags) (k a n e : GoString) (pv : ParentVars)
    (params : List Parameter) (msg : ExitMsg)
    (h : (submitRun sdk fl k a n e pv params).result = .error msg) :
    (∃ err, msg = .runError err) ∨ msg = .pipelineFail := by
  simp only [submitRun] at h
  simp at h
  split at h
  · simp at h
    exact Or.inl ⟨_, h.symm⟩
  · split at h
    · simp at h
    · rename_i ch _ _
      rcases streamResponse_result ch with h2 | h2
      · rw [h2] at h
        simp at h
      · rw [h2] at h
        right
        simpa using h.symm

/-- The result of a sequence is an exit exactly when the first part exits, or
returns a value on which the second part exits. -/
theorem Proc.bind_result_error {α β : Type} (m : Proc α) (f : α → Proc β) (msg : ExitMsg) :
    (m >>= f).result = .error msg ↔
      m.result = .error msg ∨ ∃ x, m.result = .ok x ∧ (f x).result = .error msg := by
  show (Proc.bind m f).result = _ ↔ _
  unfold Proc.bind
  cases h : m.result <;> simp [Proc.prepend]

theorem findTrigger_none (appName name envName : GoString) (trs : List PipelineTrigger)
    (h : ∀ t ∈ trs, ¬ matchesTarget appName name envName t) :
    findTrigger appName name envName trs = none := by
  induction trs with
  | nil => rfl
  | cons t trs ih =>
    have h1 : ¬ matchesTarget appName name envName t := h t (by simp)
    have h2 : ∀ x ∈ trs, ¬ matchesTarget appName name envName x := fun x hx => h x (by simp [hx])
    unfold matchesTarget at h1
    simp only [findTrigger, h1, if_false]
    exact ih h2

theorem findTrigger_first (appName name envName : GoString) (before after : List PipelineTrigger)
    (t : PipelineTrigger) (hbefore : ∀ x ∈ before, ¬ matchesTarget appName name envName x)
    (ht : matchesTarget appName name envName t) :
    findTrigger appName name envName (before ++ t :: after) = some t.Parameters := by
  induction before with
  | nil =>
    unfold matchesTarget at ht
    simp [findTrigger, ht]
  | cons x xs ih =>
    have h1 : ¬ matchesTarget appName name envName x := hbefore x (by simp)
    have h2 : ∀ y ∈ xs, ¬ matchesTarget appName name envName y :=
      fun y hy => hbefore y (by simp [hy])
    unfold matchesTarget at h1
    simp only [List.cons_append, findTrigger, h1, if_false]
    exact ih h2

/-- The parent block when the parent reference resolves up to its triggers. -/
theorem resolveParent_found (sdk : Sdk) (fl : Flags) (k a n e : GoString)
    (app : Application) (pip : Pipeline) (env : Environment) (trs : List PipelineTrigger)
    (h : ParentFound sdk fl k app pip env trs) :
    resolveParent sdk fl k a n e =
      Proc.prepend (parentLookups k fl.parentInfo env)
        (match findTrigger a n e trs with
         | none => Exit .linkNotFound
         | some params =>
           if fl.parentBuildNumber = 0 then
             Proc.prepend
               [.GetPipelineBuildStatus k (elemAt (segments fl.parentInfo) 0)
                  (elemAt (segments fl.parentInfo) 1) (parentEnvName fl.parentInfo env) 0]
               (match sdk.GetPipelineBuildStatus k (elemAt (segments fl.parentInfo) 0)
                  (elemAt (segments fl.parentInfo) 1) (parentEnvName fl.parentInfo env) 0 with
                | .error err =>
                  Exit (.cannotFetchLastBuild k (elemAt (segments fl.parentInfo) 0)
                    (elemAt (segments fl.parentInfo) 1) (parentEnvName fl.parentInfo env) err)
                | .ok pb =>
                  pure { params := params, parentBuildNumber := pb.BuildNumber,
                         ppipID := pip.ID, pappID := app.ID,
                         penvID := parentEnvID fl.parentInfo env })
           else
             pure { params := params, parentBuildNumber := fl.parentBuildNumber,
                    ppipID := pip.ID, pappID := app.ID,
                    penvID := parentEnvID fl.parentInfo env }) := by
  obtain ⟨hp, hcount, hA, hP, hE, hT⟩ := h
  rcases hcount with h2 | h3
  · have hbad : ¬ ((segments fl.parentInfo).length < 2 ∨ (segments fl.parentInfo).length > 3) := by
      omega
    have h3 : ¬ (segments fl.parentInfo).length = 3 := by omega
    simp [parentEnvName, h3] at hT
    simp only [resolveParent, parentLookups, parentEnvName, parentEnvID]
    simp [hp, hbad, h3, hA, hP, hT]
  · have hbad : ¬ ((segments fl.parentInfo).length < 2 ∨ (segments fl.parentInfo).length > 3) := by
      omega
    have hE3 := hE h3
    simp [parentEnvName, h3] at hT
    simp only [resolveParent, parentLookups, parentEnvName, parentEnvID]
    simp [hp, hbad, h3, hA, hP, hE3, hT]

/-- The run stops with the parent-info usage error exactly when the non-empty
parent reference has fewer than 2 or more than 3 segments. -/
theorem runPipeline_parentInfoFormat_iff (sdk : Sdk) (fl : Flags)
    (projectKey appName name : GoString) (rest : List GoString) (hp : fl.parentInfo ≠ []) :
    (runPipeline sdk fl (projectKey :: appName :: name :: rest)).result
        = .error .parentInfoFormat ↔
      ((segments fl.parentInfo).length < 2 ∨ (segments fl.parentInfo).length > 3) := by
  constructor
  · intro h
    by_contra hlen
    rw [runPipeline_eq, Proc.bind_result_error] at h
    rcases h with h | ⟨pv, _, h⟩
    · exact resolveParent_good_result sdk fl _ _ _ _ hp hlen h
    · rw [Proc.bind_result_error] at h
      rcases h with h | ⟨params, _, h⟩
      · obtain ⟨elt, he⟩ := parseParameters_result _ _ _ h
        cases he
      · rcases submitRun_result _ _ _ _ _ _ _ _ _ h with ⟨err, he⟩ | he <;> cases he
  · intro hlen
    rw [runPipeline_eq, resolveParent_of_bad sdk fl _ _ _ _ hp hlen]
    rfl

theorem findTrigger_of_exists (appName name envName : GoString) (trs : List PipelineTrigger)
    (h : ∃ t ∈ trs, matchesTarget appName name envName t) :
    ∃ params, findTrigger appName name envName trs = some params := by
  induction trs with
  | nil => simp at h
  | cons t trs ih =>
    by_cases ht : matchesTarget appName name envName t
    · unfold matchesTarget at ht
      exact ⟨t.Parameters, by simp [findTrigger, ht]⟩
    · have h2 : ∃ x ∈ trs, matchesTarget appName name envName x := by
        obtain ⟨x, hx, hm⟩ := h
        rcases List.mem_cons.mp hx with rfl | hx2
        · exact absurd hm ht
        · exact ⟨x, hx2, hm⟩
      obtain ⟨params, hp⟩ := ih h2
      unfold matchesTarget at ht
      exact ⟨params, by simp only [findTrigger, ht, if_false]; exact hp⟩

/-- The run when the parent block stops it. -/
theorem runPipeline_of_parent_error (sdk : Sdk) (fl : Flags)
    (projectKey appName name : GoString) (rest : List GoString) (tr : List Event)
    (msg : ExitMsg)
    (h : resolveParent sdk fl projectKey appName name
      (envNameOf (projectKey :: appName :: name :: rest)) = ⟨tr, .error msg⟩) :
    runPipeline sdk fl (projectKey :: appName :: name :: rest) = ⟨tr, .error msg⟩ := by
  rw [runPipeline_eq, h]
  rfl

/-- The run when the parent block runs to its end and the explicit parameters are
well formed. -/
theorem runPipeline_of_parent_ok (sdk : Sdk) (fl : Flags)
    (projectKey appName name : GoString) (rest : List GoString) (tr : List Event)
    (pv : ParentVars)
    (h : resolveParent sdk fl projectKey appName name
      (envNameOf (projectKey :: appName :: name :: rest)) = ⟨tr, .ok pv⟩)
    (hwf : ∀ elt ∈ fl.cmdPipelineRunArguments, '=' ∈ elt) :
    runPipeline sdk fl (projectKey :: appName :: name :: rest) =
      Proc.prepend tr (submitRun sdk fl projectKey appName name
        (envNameOf (projectKey :: appName :: name :: rest)) pv
        (pv.params ++ fl.cmdPipelineRunArguments.map specParameter)) := by
  rw [runPipeline_eq, h]
  simp [parseParameters_of_mem _ hwf]

/-- The run when the parent block runs to its end and some explicit parameter is
malformed. -/
theorem runPipeline_of_parent_ok_malformed (sdk : Sdk) (fl : Flags)
    (projectKey appName name : GoString) (rest : List GoString) (tr : List Event)
    (pv : ParentVars)
    (h : resolveParent sdk fl projectKey appName name
      (envNameOf (projectKey :: appName :: name :: rest)) = ⟨tr, .ok pv⟩)
    (hbad : ∃ elt ∈ fl.cmdPipelineRunArguments, '=' ∉ elt) :
    ∃ elt ∈ fl.cmdPipelineRunArguments, '=' ∉ elt ∧
      runPipeline sdk fl (projectKey :: appName :: name :: rest)
        = ⟨tr, .error (.malformedParameter elt)⟩ := by
  obtain ⟨elt, he, hne, heq⟩ := parseParameters_of_not_mem _ hbad pv.params
  refine ⟨elt, he, hne, ?_⟩
  rw [runPipeline_eq, h]
  simp [heq, Exit]

theorem isBuildLookup_streamLoop (ch : List Log) :
    ∀ ev ∈ (streamLoop ch).trace, isBuildLookup ev = false := by
  induction ch with
  | nil =>
    intro ev hev
    simp [streamLoop] at hev
  | cons l ch ih =>
    simp only [streamLoop]
    split
    · simp [isBuildLookup]
    · simp only [Proc.emit_bind, Proc.pure_bind, Proc.prepend_prepend, Proc.prepend_trace]
      intro ev hev
      rcases List.mem_append.mp hev with h1 | h1
      · simp at h1
        rcases h1 with rfl | rfl <;> rfl
      · exact ih ev h1

theorem isBuildLookup_submitRun (sdk : Sdk) (fl : Flags) (k a n e : GoString) (pv : ParentVars)
    (params : List Parameter) :
    ∀ ev ∈ (submitRun sdk fl k a n e pv params).trace, isBuildLookup ev = false := by
  simp only [submitRun]
  simp
  refine ⟨rfl, ?_⟩
  split
  · simp
  · split
    · simp
    · intro ev hev
      simp [streamResponse] at hev
      rcases hev with rfl | hev
      · rfl
      · exact isBuildLookup_streamLoop _ ev hev

theorem isBuildLookup_parentLookups (k parentInfo : GoString) (env : Environment) :
    ∀ ev ∈ parentLookups k parentInfo env, isBuildLookup ev = false := by
  intro ev hev
  simp only [parentLookups] at hev
  split at hev <;> simp at hev <;> rcases hev with rfl | rfl | rfl | rfl <;> rfl

theorem submitted_buildLookup (k sa sp se : GoString) (b : Int) :
    submitted [Event.GetPipelineBuildStatus k sa sp se b] = [] := rfl

theorem submitted_parentLookups (k parentInfo : GoString) (env : Environment) :
    submitted (parentLookups k parentInfo env) = [] := by
  simp only [parentLookups]
  split <;> rfl

/-! ## The claims on `runPipeline` -/

/-- C1: when every explicit parameter entry contains an `=`, each entry `elt` is
turned into exactly one Parameter, whose Name is the text before the first `=`
and whose Value is everything after it (so `elt` is Name, `=`, Value, with no `=`
in Name); the parameter loop appends these to the parameters it starts from, in
input order, and with no parent the submitted run request carries exactly them. -/
theorem C1_explicit_parameters (sdk : Sdk) (fl : Flags) (projectKey appName name : GoString)
    (rest : List GoString)
    (hwf : ∀ elt ∈ fl.cmdPipelineRunArguments, '=' ∈ elt) :
    (∀ elt ∈ fl.cmdPipelineRunArguments,
      elt = (specParameter elt).Name ++ '=' :: (specParameter elt).Value
        ∧ '=' ∉ (specParameter elt).Name) ∧
    (∀ params : List Parameter,
      parseParameters fl.cmdPipelineRunArguments params =
        pure (params ++ fl.cmdPipelineRunArguments.map specParameter)) ∧
    (fl.parentInfo = [] →
      submitted (runPipeline sdk fl (projectKey :: appName :: name :: rest)).trace =
        [{ Params := fl.cmdPipelineRunArguments.map specParameter,
           ParentBuildNumber := fl.parentBuildNumber,
           ParentPipelineID := 0, ParentApplicationID := 0, ParentEnvironmentID := 0 }]) := by
  refine ⟨fun elt he => specParameter_split elt (hwf elt he),
    fun params => parseParameters_of_mem _ hwf params, fun hp => ?_⟩
  rw [runPipeline_eq, resolveParent_of_nil _ _ _ _ _ _ hp]
  simp [parseParameters_of_mem _ hwf, submitted_submitRun]

/-- C1 at `-p a=1 -p b=2` with no parent: the submitted parameters are
`[{a,1},{b,2}]`. -/
theorem C1_explicit_parameters_witness :
    (∀ elt ∈ flagsNoParent.cmdPipelineRunArguments, '=' ∈ elt) ∧
    submitted (runPipeline demoSdk flagsNoParent demoArgs).trace =
      [{ Params := [⟨"a".toList, [], "1".toList⟩, ⟨"b".toList, [], "2".toList⟩],
         ParentBuildNumber := 0,
         ParentPipelineID := 0, ParentApplicationID := 0, ParentEnvironmentID := 0 }] :=
  ⟨by decide,
   (C1_explicit_parameters demoSdk flagsNoParent "P".toList "app".toList "pip".toList []
      (by decide)).2.2 rfl⟩

/-- C2: when the parent block has run to its end leaving the inherited parameters
`pv.params` (empty when no parent is given, the template of the first matching
trigger link when the parent resolves) and every explicit entry is well formed,
exactly one run request is submitted and its Params are the inherited parameters
followed by the parsed explicit ones, each in its order, nothing removed: the
length is the sum of both lengths and every parameter occurs as often as in both
lists together. -/
theorem C2_params_concat (sdk : Sdk) (fl : Flags) (projectKey appName name : GoString)
    (rest : List GoString) (tr : List Event) (pv : ParentVars)
    (hwf : ∀ elt ∈ fl.cmdPipelineRunArguments, '=' ∈ elt)
    (hparent : resolveParent sdk fl projectKey appName name
      (envNameOf (projectKey :: appName :: name :: rest)) = ⟨tr, .ok pv⟩) :
    (fl.parentInfo = [] → pv.params = []) ∧
    (∀ app pip env trs before t after,
      ParentFound sdk fl projectKey app pip env trs →
      trs = before ++ t :: after →
      (∀ x ∈ before, ¬ matchesTarget appName name
        (envNameOf (projectKey :: appName :: name :: rest)) x) →
      matchesTarget appName name (envNameOf (projectKey :: appName :: name :: rest)) t →
      pv.params = t.Parameters) ∧
    ∃ r, submitted (runPipeline sdk fl (projectKey :: appName :: name :: rest)).trace = [r]
      ∧ r.Params = pv.params ++ fl.cmdPipelineRunArguments.map specParameter
      ∧ r.Params.length = pv.params.length + fl.cmdPipelineRunArguments.length
      ∧ ∀ p, r.Params.count p =
          pv.params.count p + (fl.cmdPipelineRunArguments.map specParameter).count p := by
  refine ⟨fun hp => ?_, ?_, ?_⟩
  · rw [resolveParent_of_nil _ _ _ _ _ _ hp] at hparent
    have h := congrArg Proc.result hparent
    simp at h
    rw [← h]
  · intro app pip env trs before t after hfound htrs hbefore ht
    rw [resolveParent_found _ _ _ _ _ _ _ _ _ _ hfound, htrs,
      findTrigger_first _ _ _ _ _ _ hbefore ht] at hparent
    have h := congrArg Proc.result hparent
    simp only [Proc.prepend_result] at h
    split at h
    · simp only [Proc.prepend_result] at h
      split at h
      · simp at h
      · simp at h
        rw [← h]
    · simp at h
      rw [← h]
  · refine ⟨{ Params := pv.params ++ fl.cmdPipelineRunArguments.map specParameter,
               ParentBuildNumber := pv.parentBuildNumber, ParentPipelineID := pv.ppipID,
               ParentApplicationID := pv.pappID, ParentEnvironmentID := pv.penvID },
      ?_, rfl, by simp, fun p => by simp⟩
    rw [runPipeline_eq, hparent]
    simp [parseParameters_of_mem _ hwf, submitted_append, submitted_submitRun]
    have h := submitted_resolveParent sdk fl projectKey appName name
      (envNameOf (projectKey :: appName :: name :: rest))
    rw [hparent] at h
    exact h

/-- C2 at `--parent appX/pipY -p k=1`: the inherited `{k,v}` of the first matching
link is followed by the explicit `{k,1}`, and both are passed. -/
theorem C2_params_concat_witness :
    ∃ r, submitted (runPipeline demoSdk (flagsParent "appX/pipY" "k=1") demoArgs).trace = [r]
      ∧ r.Params = [⟨"k".toList, [], "v".toList⟩, ⟨"k".toList, [], "1".toList⟩]
      ∧ r.Params.length = 1 + 1 := by
  obtain ⟨r, h1, h2, h3, _⟩ :=
    (C2_params_concat demoSdk (flagsParent "appX/pipY" "k=1") "P".toList "app".toList
      "pip".toList []
      [.GetApplication "P".toList "appX".toList, .GetPipeline "P".toList "pipY".toList,
       .GetTriggersAsSource "P".toList "appX".toList "pipY".toList "NoEnv".toList,
       .GetPipelineBuildStatus "P".toList "appX".toList "pipY".toList "NoEnv".toList 0]
      ⟨[⟨"k".toList, [], "v".toList⟩], 42, 20, 10, 1⟩ (by decide) (by decide)).2.2
  exact ⟨r, h1, h2, h3⟩

/-- C3: for a non-empty parent reference, `runPipeline` stops with the
parent-info usage error exactly when splitting the reference on `/` yields fewer
than 2 or more than 3 segments. -/
theorem C3_parent_parsing (sdk : Sdk) (fl : Flags) (projectKey appName name : GoString)
    (rest : List GoString) (hp : fl.parentInfo ≠ []) :
    (runPipeline sdk fl (projectKey :: appName :: name :: rest)).result
        = .error .parentInfoFormat ↔
      ((Split fl.parentInfo ['/']).length < 2 ∨ (Split fl.parentInfo ['/']).length > 3) := by
  exact runPipeline_parentInfoFormat_iff sdk fl projectKey appName name rest hp

/-- C3 at the four references of the spec: `app` and `app/pip/env/extra` fail the
parsing step, `app/pip` and `app/pip/env` pass it. -/
theorem C3_parent_parsing_witness :
    (runPipeline demoSdk (flagsParent "app" "a=1") demoArgs).result
      = .error .parentInfoFormat ∧
    (runPipeline demoSdk (flagsParent "app/pip/env/extra" "a=1") demoArgs).result
      = .error .parentInfoFormat ∧
    (runPipeline demoSdk (flagsParent "app/pip" "a=1") demoArgs).result
      ≠ .error .parentInfoFormat ∧
    (runPipeline demoSdk (flagsParent "app/pip/env" "a=1") demoArgs).result
      ≠ .error .parentInfoFormat :=
  ⟨(C3_parent_parsing demoSdk (flagsParent "app" "a=1") "P".toList "app".toList
      "pip".toList [] (by decide)).mpr (by decide),
   (C3_parent_parsing demoSdk (flagsParent "app/pip/env/extra" "a=1") "P".toList "app".toList
      "pip".toList [] (by decide)).mpr (by decide),
   fun h => absurd ((C3_parent_parsing demoSdk (flagsParent "app/pip" "a=1") "P".toList
      "app".toList "pip".toList [] (by decide)).mp h) (by decide),
   fun h => absurd ((C3_parent_parsing demoSdk (flagsParent "app/pip/env" "a=1") "P".toList
      "app".toList "pip".toList [] (by decide)).mp h) (by decide)⟩

/-- C4, as the claim states it, fails: the references `app//env`, `/pip` and
`app/`, each with an empty segment, do not stop at the parsing step; the
application lookup is made, and for `app//env` the pipeline lookup is made with
the empty name. -/
theorem C4_empty_segment_counterexample :
    (runPipeline demoSdk (flagsParent "app//env" "a=1") demoArgs).result
      ≠ .error .parentInfoFormat ∧
    Event.GetPipeline "P".toList [] ∈
      (runPipeline demoSdk (flagsParent "app//env" "a=1") demoArgs).trace ∧
    (runPipeline demoSdk (flagsParent "/pip" "a=1") demoArgs).trace.head?
      = some (.GetApplication "P".toList []) ∧
    (runPipeline demoSdk (flagsParent "app/" "a=1") demoArgs).trace.head?
      = some (.GetApplication "P".toList "app".toList) := by
  decide

/-- C4, amended: a non-empty parent reference is checked for the number of its
`/`-separated segments only.  With fewer than 2 or more than 3 segments the run
stops with the parent-info usage error before any lookup; with 2 or 3 segments,
empty or not, the parsing step passes and the first thing the run does is the
application lookup with the first segment. -/
theorem C4_segment_count_only (sdk : Sdk) (fl : Flags) (projectKey appName name : GoString)
    (rest : List GoString) (hp : fl.parentInfo ≠ []) :
    (((Split fl.parentInfo ['/']).length < 2 ∨ (Split fl.parentInfo ['/']).length > 3) →
      (runPipeline sdk fl (projectKey :: appName :: name :: rest)).trace = [] ∧
      (runPipeline sdk fl (projectKey :: appName :: name :: rest)).result
        = .error .parentInfoFormat) ∧
    (((Split fl.parentInfo ['/']).length = 2 ∨ (Split fl.parentInfo ['/']).length = 3) →
      (runPipeline sdk fl (projectKey :: appName :: name :: rest)).trace.head?
        = some (.GetApplication projectKey (elemAt (Split fl.parentInfo ['/']) 0)) ∧
      (runPipeline sdk fl (projectKey :: appName :: name :: rest)).result
        ≠ .error .parentInfoFormat) := by
  constructor
  · intro hlen
    have hlen2 : (segments fl.parentInfo).length < 2 ∨ (segments fl.parentInfo).length > 3 := hlen
    rw [runPipeline_eq, resolveParent_of_bad sdk fl _ _ _ _ hp hlen2]
    exact ⟨rfl, rfl⟩
  · intro hlen
    have hgood : ¬ ((segments fl.parentInfo).length < 2 ∨ (segments fl.parentInfo).length > 3) := by
      have h2 : (segments fl.parentInfo).length = 2 ∨ (segments fl.parentInfo).length = 3 := hlen
      omega
    constructor
    · have hh := resolveParent_good_head sdk fl projectKey appName name
        (envNameOf (projectKey :: appName :: name :: rest)) hp hgood
      rw [runPipeline_eq]
      show (Proc.bind _ _).trace.head? = _
      unfold Proc.bind
      split
      · exact hh
      · simp only [Proc.prepend_trace]
        cases htr : (resolveParent sdk fl projectKey appName name
          (envNameOf (projectKey :: appName :: name :: rest))).trace with
        | nil => rw [htr] at hh; simp at hh
        | cons x xs =>
          rw [htr] at hh
          simpa using hh
    · intro h
      exact hgood ((runPipeline_parentInfoFormat_iff sdk fl projectKey appName name rest hp).mp h)

/-- C4 amended, at `app//env`: three segments, the second empty; the parsing step
passes and the application `app` is looked up. -/
theorem C4_segment_count_only_witness :
    (flagsParent "app//env" "a=1").parentInfo ≠ [] ∧
    (runPipeline demoSdk (flagsParent "app//env" "a=1") demoArgs).trace.head?
      = some (.GetApplication "P".toList "app".toList) ∧
    (runPipeline demoSdk (flagsParent "app//env" "a=1") demoArgs).result
      ≠ .error .parentInfoFormat :=
  ⟨by decide,
   (C4_segment_count_only demoSdk (flagsParent "app//env" "a=1") "P".toList "app".toList
      "pip".toList [] (by decide)).2 (by decide)⟩

/-- C5, as the claim states it, fails: with `--parent appX/pipY -p a` the entry `a`
has no `=`, yet the application, pipeline, trigger and last-build lookups are all
made before the malformed-parameter error is raised. -/
theorem C5_lookups_before_parameters_counterexample :
    (runPipeline demoSdk (flagsParent "appX/pipY" "a") demoArgs).result
      = .error (.malformedParameter "a".toList) ∧
    (runPipeline demoSdk (flagsParent "appX/pipY" "a") demoArgs).trace =
      [.GetApplication "P".toList "appX".toList, .GetPipeline "P".toList "pipY".toList,
       .GetTriggersAsSource "P".toList "appX".toList "pipY".toList "NoEnv".toList,
       .GetPipelineBuildStatus "P".toList "appX".toList "pipY".toList "NoEnv".toList 0] := by
  decide

/-- C5, amended: when some explicit parameter entry contains no `=`, no pipeline
run is ever submitted.  With no parent reference the run stops with the
malformed-parameter error of such an entry and has done nothing before.  With a
parent reference the parent block runs first: if it runs to its end, the run
then stops with the malformed-parameter error, having made the lookups of the
parent block and nothing else; if the parent block stops the run, the run ends
there with the error of the parent block. -/
theorem C5_malformed_parameter (sdk : Sdk) (fl : Flags) (projectKey appName name : GoString)
    (rest : List GoString)
    (hbad : ∃ elt ∈ fl.cmdPipelineRunArguments, '=' ∉ elt) :
    submitted (runPipeline sdk fl (projectKey :: appName :: name :: rest)).trace = [] ∧
    (fl.parentInfo = [] →
      (runPipeline sdk fl (projectKey :: appName :: name :: rest)).trace = [] ∧
      ∃ elt ∈ fl.cmdPipelineRunArguments, '=' ∉ elt ∧
        (runPipeline sdk fl (projectKey :: appName :: name :: rest)).result
          = .error (.malformedParameter elt)) ∧
    (∀ tr pv,
      resolveParent sdk fl projectKey appName name
        (envNameOf (projectKey :: appName :: name :: rest)) = ⟨tr, .ok pv⟩ →
      (runPipeline sdk fl (projectKey :: appName :: name :: rest)).trace = tr ∧
      ∃ elt ∈ fl.cmdPipelineRunArguments, '=' ∉ elt ∧
        (runPipeline sdk fl (projectKey :: appName :: name :: rest)).result
          = .error (.malformedParameter elt)) ∧
    (∀ tr msg,
      resolveParent sdk fl projectKey appName name
        (envNameOf (projectKey :: appName :: name :: rest)) = ⟨tr, .error msg⟩ →
      runPipeline sdk fl (projectKey :: appName :: name :: rest) = ⟨tr, .error msg⟩) := by
  have key : ∀ tr pv,
      resolveParent sdk fl projectKey appName name
        (envNameOf (projectKey :: appName :: name :: rest)) = ⟨tr, .ok pv⟩ →
      ∃ elt ∈ fl.cmdPipelineRunArguments, '=' ∉ elt ∧
        runPipeline sdk fl (projectKey :: appName :: name :: rest)
          = ⟨tr, .error (.malformedParameter elt)⟩ := by
    intro tr pv h
    obtain ⟨elt, he, hne, heq⟩ := parseParameters_of_not_mem _ hbad pv.params
    refine ⟨elt, he, hne, ?_⟩
    rw [runPipeline_eq, h]
    simp [heq, Exit]
  have kerr : ∀ tr msg,
      resolveParent sdk fl projectKey appName name
        (envNameOf (projectKey :: appName :: name :: rest)) = ⟨tr, .error msg⟩ →
      runPipeline sdk fl (projectKey :: appName :: name :: rest) = ⟨tr, .error msg⟩ := by
    intro tr msg h
    rw [runPipeline_eq, h]
    rfl
  refine ⟨?_, fun hp => ?_, fun tr pv h => ?_, kerr⟩
  · have hs := submitted_resolveParent sdk fl projectKey appName name
      (envNameOf (projectKey :: appName :: name :: rest))
    cases hres : resolveParent sdk fl projectKey appName name
      (envNameOf (projectKey :: appName :: name :: rest)) with
    | mk tr res =>
      rw [hres] at hs
      cases res with
      | error msg => rw [kerr tr msg hres]; exact hs
      | ok pv =>
        obtain ⟨elt, _, _, heq⟩ := key tr pv hres
        rw [heq]
        exact hs
  · obtain ⟨elt, he, hne, heq⟩ := key [] _ (resolveParent_of_nil sdk fl _ _ _ _ hp)
    rw [heq]
    exact ⟨rfl, elt, he, hne, rfl⟩
  · obtain ⟨elt, he, hne, heq⟩ := key tr pv h
    rw [heq]
    exact ⟨rfl, elt, he, hne, rfl⟩

/-- C5 amended, at `-p a` with no parent: nothing is done before the
malformed-parameter error. -/
theorem C5_malformed_parameter_witness :
    (∃ elt ∈ ["a".toList], '=' ∉ elt) ∧
    submitted (runPipeline demoSdk ⟨["a".toList], false, [], 0⟩ demoArgs).trace = [] ∧
    (runPipeline demoSdk ⟨["a".toList], false, [], 0⟩ demoArgs).trace = [] :=
  ⟨by decide,
   (C5_malformed_parameter demoSdk ⟨["a".toList], false, [], 0⟩ "P".toList "app".toList
      "pip".toList [] (by decide)).1,
   ((C5_malformed_parameter demoSdk ⟨["a".toList], false, [], 0⟩ "P".toList "app".toList
      "pip".toList [] (by decide)).2.1 rfl).1⟩

/-- C6: let the parent reference resolve and `trs` be the trigger links returned
for the parent source.  If no link of `trs` has destination application,
pipeline and environment names equal to the target's, the run stops with the
link-not-found error and submits no run request.  If `t` is the first link of
`trs` that matches, the run does not stop with link-not-found, the inherited
parameters the parent block leaves are `t.Parameters`, every submitted run
request starts with them, and a request is submitted as soon as the parent build
number is available and the explicit parameters are well formed. -/
theorem C6_trigger_match (sdk : Sdk) (fl : Flags) (projectKey appName name : GoString)
    (rest : List GoString) (app : Application) (pip : Pipeline) (env : Environment)
    (trs : List PipelineTrigger)
    (hfound : ParentFound sdk fl projectKey app pip env trs) :
    ((∀ t ∈ trs, ¬ matchesTarget appName name
        (envNameOf (projectKey :: appName :: name :: rest)) t) →
      (runPipeline sdk fl (projectKey :: appName :: name :: rest)).result
        = .error .linkNotFound ∧
      submitted (runPipeline sdk fl (projectKey :: appName :: name :: rest)).trace = []) ∧
    (∀ before t after, trs = before ++ t :: after →
      (∀ x ∈ before, ¬ matchesTarget appName name
        (envNameOf (projectKey :: appName :: name :: rest)) x) →
      matchesTarget appName name (envNameOf (projectKey :: appName :: name :: rest)) t →
      (runPipeline sdk fl (projectKey :: appName :: name :: rest)).result
        ≠ .error .linkNotFound ∧
      (∀ tr pv, resolveParent sdk fl projectKey appName name
          (envNameOf (projectKey :: appName :: name :: rest)) = ⟨tr, .ok pv⟩ →
        pv.params = t.Parameters) ∧
      (∀ r ∈ submitted (runPipeline sdk fl (projectKey :: appName :: name :: rest)).trace,
        r.Params = t.Parameters ++ fl.cmdPipelineRunArguments.map specParameter) ∧
      ((fl.parentBuildNumber ≠ 0 ∨ ∃ pb, sdk.GetPipelineBuildStatus projectKey
            (elemAt (segments fl.parentInfo) 0) (elemAt (segments fl.parentInfo) 1)
            (parentEnvName fl.parentInfo env) 0 = .ok pb) →
        (∀ elt ∈ fl.cmdPipelineRunArguments, '=' ∈ elt) →
        submitted (runPipeline sdk fl (projectKey :: appName :: name :: rest)).trace ≠ [])) := by
  constructor
  · intro hnone
    have h := resolveParent_found sdk fl projectKey appName name
      (envNameOf (projectKey :: appName :: name :: rest)) app pip env trs hfound
    rw [findTrigger_none _ _ _ _ hnone] at h
    simp only [Proc.prepend_exit] at h
    rw [runPipeline_of_parent_error _ _ _ _ _ _ _ _ h]
    exact ⟨rfl, submitted_parentLookups _ _ _⟩
  · intro before t after htrs hbefore ht
    have h := resolveParent_found sdk fl projectKey appName name
      (envNameOf (projectKey :: appName :: name :: rest)) app pip env trs hfound
    rw [htrs, findTrigger_first _ _ _ _ _ _ hbefore ht] at h
    simp only at h
    -- the three ways the parent block can end
    have hcases :
        (∃ tr msg, msg ≠ .linkNotFound ∧ (¬ (fl.parentBuildNumber ≠ 0 ∨
            ∃ pb, sdk.GetPipelineBuildStatus projectKey
              (elemAt (segments fl.parentInfo) 0) (elemAt (segments fl.parentInfo) 1)
              (parentEnvName fl.parentInfo env) 0 = .ok pb)) ∧
          resolveParent sdk fl projectKey appName name
            (envNameOf (projectKey :: appName :: name :: rest)) = ⟨tr, .error msg⟩) ∨
        (∃ tr pv, pv.params = t.Parameters ∧
          resolveParent sdk fl projectKey appName name
            (envNameOf (projectKey :: appName :: name :: rest)) = ⟨tr, .ok pv⟩) := by
      by_cases hb : fl.parentBuildNumber = 0
      · simp only [hb, if_true] at h
        cases hs : sdk.GetPipelineBuildStatus projectKey
            (elemAt (segments fl.parentInfo) 0) (elemAt (segments fl.parentInfo) 1)
            (parentEnvName fl.parentInfo env) 0 with
        | error err =>
          left
          rw [hs] at h
          simp only [Proc.prepend_exit, Proc.prepend_mk] at h
          exact ⟨_, _, by simp, by simp [hb], h⟩
        | ok pb =>
          right
          rw [hs] at h
          simp only [Proc.prepend_pure, Proc.prepend_mk] at h
          exact ⟨_, _, rfl, h⟩
      · right
        simp only [hb, if_false, Proc.prepend_pure] at h
        exact ⟨_, _, rfl, h⟩
    rcases hcases with ⟨tr, msg, hmsg, hnb, hres⟩ | ⟨tr, pv, hpv, hres⟩
    · have hs := submitted_resolveParent sdk fl projectKey appName name
        (envNameOf (projectKey :: appName :: name :: rest))
      rw [hres] at hs
      rw [runPipeline_of_parent_error _ _ _ _ _ _ _ _ hres]
      refine ⟨?_, ?_, ?_, fun hb => absurd hb hnb⟩
      · intro hh
        exact hmsg (by simpa using hh)
      · intro tr2 pv2 h2
        rw [hres] at h2
        simp at h2
      · intro r hr
        simp only at hs
        simp [hs] at hr
    · have hs := submitted_resolveParent sdk fl projectKey appName name
        (envNameOf (projectKey :: appName :: name :: rest))
      rw [hres] at hs
      simp only at hs
      have hpar : ∀ tr2 pv2, resolveParent sdk fl projectKey appName name
          (envNameOf (projectKey :: appName :: name :: rest)) = ⟨tr2, .ok pv2⟩ →
          pv2.params = t.Parameters := by
        intro tr2 pv2 h2
        rw [hres] at h2
        simp at h2
        rw [← h2.2]
        exact hpv
      by_cases hwf : ∀ elt ∈ fl.cmdPipelineRunArguments, '=' ∈ elt
      · rw [runPipeline_of_parent_ok _ _ _ _ _ _ _ _ hres hwf]
        simp only [Proc.prepend_trace, Proc.prepend_result, submitted_append, hs,
          submitted_submitRun, List.nil_append]
        refine ⟨?_, hpar, ?_, fun _ _ => by simp⟩
        · intro hh
          rcases submitRun_result _ _ _ _ _ _ _ _ _ hh with ⟨err, he⟩ | he <;> cases he
        · intro r hr
          simp at hr
          rw [hr, hpv]
      · have hbad : ∃ elt ∈ fl.cmdPipelineRunArguments, '=' ∉ elt := by
          by_contra hc
          exact hwf (fun elt he => by
            by_contra hne
            exact hc ⟨elt, he, hne⟩)
        obtain ⟨elt, _, _, heq⟩ :=
          runPipeline_of_parent_ok_malformed _ _ _ _ _ _ _ _ hres hbad
        rw [heq]
        refine ⟨by simp, hpar, ?_, fun _ hw => absurd hw hwf⟩
        intro r hr
        simp [hs] at hr

/-- C6 at `--parent appX/pipY -p a=1`: the second and third links of the server
match the target (`app`, `pip`, no environment); the parameters of the second,
the first that matches, are inherited. -/
theorem C6_trigger_match_witness :
    ∃ r, r ∈ submitted (runPipeline demoSdk (flagsParent "appX/pipY" "a=1") demoArgs).trace
      ∧ r.Params = [⟨"k".toList, [], "v".toList⟩, ⟨"a".toList, [], "1".toList⟩] :=
  ⟨⟨[⟨"k".toList, [], "v".toList⟩, ⟨"a".toList, [], "1".toList⟩], 42, 20, 10, 1⟩,
   by decide,
   ((C6_trigger_match demoSdk (flagsParent "appX/pipY" "a=1") "P".toList "app".toList
      "pip".toList [] ⟨10, "appX".toList⟩ ⟨20, "pipY".toList⟩ ⟨0, []⟩ _
      ⟨by decide, by decide, rfl, rfl, by decide, rfl⟩).2
    [⟨⟨1, "other".toList⟩, ⟨2, "pip".toList⟩, ⟨3, []⟩, [⟨"x".toList, [], "y".toList⟩]⟩]
    ⟨⟨1, "app".toList⟩, ⟨2, "pip".toList⟩, ⟨3, []⟩, [⟨"k".toList, [], "v".toList⟩]⟩
    [⟨⟨1, "app".toList⟩, ⟨2, "pip".toList⟩, ⟨3, []⟩, [⟨"k".toList, [], "w".toList⟩]⟩]
    rfl (by decide) (by decide)).2.2.1 _ (by decide)⟩

/-- C7: let the parent reference resolve, some trigger link match the target, and
the explicit parameters be well formed.  If the explicit parent build number is
0, the latest build is looked up for the parent application, pipeline and
environment name (`NoEnv` when the reference has two segments): when the lookup
answers a build, exactly one run request is submitted and its ParentBuildNumber
is the build number of the answer; when the lookup fails, the run stops with the
last-build error and submits nothing.  If the explicit parent build number is
not 0, exactly one run request is submitted, its ParentBuildNumber is the
explicit number, and no latest-build lookup is made. -/
theorem C7_parent_build_number (sdk : Sdk) (fl : Flags) (projectKey appName name : GoString)
    (rest : List GoString) (app : Application) (pip : Pipeline) (env : Environment)
    (trs : List PipelineTrigger)
    (hfound : ParentFound sdk fl projectKey app pip env trs)
    (hlink : ∃ t ∈ trs, matchesTarget appName name
      (envNameOf (projectKey :: appName :: name :: rest)) t)
    (hwf : ∀ elt ∈ fl.cmdPipelineRunArguments, '=' ∈ elt) :
    ((segments fl.parentInfo).length = 2 → parentEnvName fl.parentInfo env = "NoEnv".toList) ∧
    (fl.parentBuildNumber = 0 →
      ∀ pb, sdk.GetPipelineBuildStatus projectKey (elemAt (segments fl.parentInfo) 0)
          (elemAt (segments fl.parentInfo) 1) (parentEnvName fl.parentInfo env) 0 = .ok pb →
        Event.GetPipelineBuildStatus projectKey (elemAt (segments fl.parentInfo) 0)
          (elemAt (segments fl.parentInfo) 1) (parentEnvName fl.parentInfo env) 0
          ∈ (runPipeline sdk fl (projectKey :: appName :: name :: rest)).trace ∧
        ∃ r, submitted (runPipeline sdk fl (projectKey :: appName :: name :: rest)).trace = [r]
          ∧ r.ParentBuildNumber = pb.BuildNumber) ∧
    (fl.parentBuildNumber = 0 →
      ∀ err, sdk.GetPipelineBuildStatus projectKey (elemAt (segments fl.parentInfo) 0)
          (elemAt (segments fl.parentInfo) 1) (parentEnvName fl.parentInfo env) 0 = .error err →
        (runPipeline sdk fl (projectKey :: appName :: name :: rest)).result =
          .error (.cannotFetchLastBuild projectKey (elemAt (segments fl.parentInfo) 0)
            (elemAt (segments fl.parentInfo) 1) (parentEnvName fl.parentInfo env) err) ∧
        submitted (runPipeline sdk fl (projectKey :: appName :: name :: rest)).trace = []) ∧
    (fl.parentBuildNumber ≠ 0 →
      (∃ r, submitted (runPipeline sdk fl (projectKey :: appName :: name :: rest)).trace = [r]
        ∧ r.ParentBuildNumber = fl.parentBuildNumber) ∧
      ∀ ev ∈ (runPipeline sdk fl (projectKey :: appName :: name :: rest)).trace,
        isBuildLookup ev = false) := by
  obtain ⟨params, hparams⟩ := findTrigger_of_exists _ _ _ _ hlink
  have h := resolveParent_found sdk fl projectKey appName name
    (envNameOf (projectKey :: appName :: name :: rest)) app pip env trs hfound
  rw [hparams] at h
  simp only at h
  refine ⟨fun h2 => by simp [parentEnvName, h2], fun hb pb hs => ?_, fun hb err hs => ?_,
    fun hb => ?_⟩
  · simp only [hb, if_true, hs, Proc.prepend_pure, Proc.prepend_mk] at h
    rw [runPipeline_of_parent_ok _ _ _ _ _ _ _ _ h hwf]
    simp only [Proc.prepend_trace, submitted_append, submitted_submitRun,
      submitted_parentLookups, submitted_buildLookup, List.nil_append]
    exact ⟨List.mem_append_left _ (List.mem_append_right _ (List.mem_singleton.mpr rfl)),
      _, rfl, rfl⟩
  · simp only [hb, if_true, hs, Proc.prepend_exit, Proc.prepend_mk] at h
    rw [runPipeline_of_parent_error _ _ _ _ _ _ _ _ h]
    simp only [submitted_append, submitted_parentLookups, submitted_buildLookup,
      List.nil_append]
    exact ⟨trivial, trivial⟩
  · simp only [hb, if_false, Proc.prepend_pure] at h
    rw [runPipeline_of_parent_ok _ _ _ _ _ _ _ _ h hwf]
    simp only [Proc.prepend_trace, submitted_append, submitted_submitRun,
      submitted_parentLookups, List.nil_append]
    refine ⟨⟨_, rfl, rfl⟩, fun ev hev => ?_⟩
    rcases List.mem_append.mp hev with h1 | h1
    · exact isBuildLookup_parentLookups _ _ _ ev h1
    · exact isBuildLookup_submitRun _ _ _ _ _ _ _ _ ev h1

/-- C7 at `--parent appX/pipY/envZ -p a=1` with no parent build number, on the
server whose latest build is 42: the submitted request has ParentBuildNumber 42. -/
theorem C7_parent_build_number_witness :
    ∃ r, submitted (runPipeline demoSdk (flagsParent "appX/pipY/envZ" "a=1") demoArgs).trace = [r]
      ∧ r.ParentBuildNumber = 42 :=
  ((C7_parent_build_number demoSdk (flagsParent "appX/pipY/envZ" "a=1") "P".toList
      "app".toList "pip".toList [] ⟨10, "appX".toList⟩ ⟨20, "pipY".toList⟩ ⟨30, "envZ".toList⟩ _
      ⟨by decide, by decide, rfl, rfl, fun _ => rfl, rfl⟩ (by decide) (by decide)).2.1
    rfl ⟨42⟩ rfl).2

/-! ## The claims on `streamResponse` -/

theorem HasPrefix_iff (s p : GoString) : HasPrefix s p = true ↔ ∃ after, s = p ++ after := by
  induction p generalizing s with
  | nil => simp [HasPrefix]
  | cons d p ih =>
    cases s with
    | nil => simp [HasPrefix]
    | cons c s =>
      simp only [HasPrefix, Bool.and_eq_true, beq_iff_eq, ih, List.cons_append,
        List.cons.injEq]
      constructor
      · rintro ⟨rfl, after, rfl⟩
        exact ⟨after, rfl, rfl⟩
      · rintro ⟨after, rfl, rfl⟩
        exact ⟨rfl, after, rfl⟩

/-- Go `strings.Contains(s, substr)` holds exactly when `substr` occurs in `s`. -/
theorem Contains_iff (s substr : GoString) :
    Contains s substr = true ↔ ∃ before after, s = before ++ substr ++ after := by
  unfold Contains
  induction s with
  | nil =>
    simp only [Index]
    by_cases h : HasPrefix [] substr = true
    · obtain ⟨after, ha⟩ := (HasPrefix_iff _ _).mp h
      simp only [h, if_true, Option.isSome_some, true_iff]
      exact ⟨[], after, by simpa using ha⟩
    · simp only [h]
      simp only [Bool.false_eq_true, if_false, Option.isSome_none, false_iff]
      rintro ⟨before, after, hba⟩
      apply h
      rw [HasPrefix_iff]
      have h1 : before ++ substr ++ after = [] := hba.symm
      simp only [List.append_eq_nil] at h1
      exact ⟨[], by simp [h1.1.2]⟩
  | cons c s ih =>
    simp only [Index]
    by_cases h : HasPrefix (c :: s) substr = true
    · obtain ⟨after, ha⟩ := (HasPrefix_iff _ _).mp h
      simp only [h, if_true, Option.isSome_some, true_iff]
      exact ⟨[], after, by simpa using ha⟩
    · simp only [h]
      simp only [Bool.false_eq_true, if_false, Option.isSome_map']
      rw [ih]
      constructor
      · rintro ⟨before, after, hba⟩
        exact ⟨c :: before, after, by simp [hba]⟩
      · rintro ⟨before, after, hba⟩
        cases before with
        | nil =>
          exfalso
          apply h
          rw [HasPrefix_iff]
          exact ⟨after, by simpa using hba⟩
        | cons b before =>
          simp only [List.cons_append, List.cons.injEq] at hba
          exact ⟨before, after, hba.2⟩

theorem isFailure_iff (l : Log) :
    isFailure l ↔ (l.ID = 0 ∧ Contains l.Value "status: Fail".toList = true) := by
  unfold isFailure
  rw [Contains_iff]

theorem streamLoop_no_failure (ch : List Log) (h : ∀ l ∈ ch, ¬ isFailure l) :
    streamLoop ch = ⟨ch.flatMap lineOf, .ok ()⟩ := by
  induction ch with
  | nil => rfl
  | cons l ch ih =>
    have h1 : ¬ (l.ID = 0 ∧ Contains l.Value "status: Fail".toList = true) := by
      rw [← isFailure_iff]
      exact h l (by simp)
    have h2 : ∀ x ∈ ch, ¬ isFailure x := fun x hx => h x (by simp [hx])
    simp only [streamLoop, h1, if_false, ih h2]
    simp [lineOf]

theorem streamLoop_failure (before after : List Log) (l : Log)
    (hbefore : ∀ x ∈ before, ¬ isFailure x) (hl : isFailure l) :
    streamLoop (before ++ l :: after) =
      ⟨(before ++ [l]).flatMap lineOf, .error .pipelineFail⟩ := by
  induction before with
  | nil =>
    have h1 : l.ID = 0 ∧ Contains l.Value "status: Fail".toList = true :=
      (isFailure_iff l).mp hl
    simp only [List.nil_append, streamLoop, h1, and_self, if_true]
    simp [lineOf]
  | cons x xs ih =>
    have h1 : ¬ (x.ID = 0 ∧ Contains x.Value "status: Fail".toList = true) := by
      rw [← isFailure_iff]
      exact hbefore x (by simp)
    have h2 : ∀ y ∈ xs, ¬ isFailure y := fun y hy => hbefore y (by simp [hy])
    simp only [List.cons_append, streamLoop, h1, if_false]
    simp [lineOf, ih h2]

/-- A list of records has a first failure record, or none. -/
theorem first_failure (ch : List Log) :
    (∀ l ∈ ch, ¬ isFailure l) ∨
    ∃ before l after, ch = before ++ l :: after ∧ (∀ x ∈ before, ¬ isFailure x) ∧ isFailure l := by
  induction ch with
  | nil => left; simp
  | cons c ch ih =>
    by_cases hc : isFailure c
    · right
      exact ⟨[], c, ch, rfl, by simp, hc⟩
    · rcases ih with h | ⟨before, l, after, rfl, hb, hl⟩
      · left
        intro l hl
        rcases List.mem_cons.mp hl with rfl | h2
        · exact hc
        · exact h l h2
      · right
        refine ⟨c :: before, l, after, rfl, ?_, hl⟩
        intro x hx
        rcases List.mem_cons.mp hx with rfl | h2
        · exact hc
        · exact hb x h2

/-- C8: for every sequence of records the channel delivers before it is closed,
`streamResponse` stops the process (non-zero exit) if and only if some record of
the sequence, at any position, has ID 0 and a value in which `status: Fail`
occurs; it returns normally if and only if there is no such record, so records
with another ID, or with ID 0 and no marker, never cause the failure. -/
theorem C8_stream_outcome (ch : List Log) :
    ((streamResponse ch).result = .error .pipelineFail ↔
      ∃ l ∈ ch, l.ID = 0 ∧ ∃ before after : GoString,
        l.Value = before ++ "status: Fail".toList ++ after) ∧
    ((streamResponse ch).result = .ok () ↔
      ∀ l ∈ ch, ¬ (l.ID = 0 ∧ ∃ before after : GoString,
        l.Value = before ++ "status: Fail".toList ++ after)) ∧
    (streamResponse [logBuildOk, logFail]).result = .error .pipelineFail ∧
    (streamResponse [logBuildOk]).result = .ok () := by
  have key : ∀ ch : List Log,
      ((∀ l ∈ ch, ¬ isFailure l) ∧ (streamResponse ch).result = .ok ()) ∨
      ((∃ l ∈ ch, isFailure l) ∧ (streamResponse ch).result = .error .pipelineFail) := by
    intro ch
    rcases first_failure ch with h | ⟨before, l, after, rfl, hb, hl⟩
    · left
      refine ⟨h, ?_⟩
      simp [streamResponse, streamLoop_no_failure ch h]
    · right
      refine ⟨⟨l, by simp, hl⟩, ?_⟩
      simp [streamResponse, streamLoop_failure before after l hb hl]
  refine ⟨?_, ?_, by decide, by decide⟩
  · rcases key ch with ⟨hno, hres⟩ | ⟨hsome, hres⟩
    · rw [hres]
      constructor
      · intro h; cases h
      · rintro ⟨l, hl, hf⟩
        exact absurd hf (hno l hl)
    · rw [hres]
      exact ⟨fun _ => hsome, fun _ => rfl⟩
  · rcases key ch with ⟨hno, hres⟩ | ⟨⟨l, hl, hf⟩, hres⟩
    · rw [hres]
      exact ⟨fun _ => hno, fun _ => rfl⟩
    · rw [hres]
      constructor
      · intro h; cases h
      · intro h
        exact absurd hf (h l hl)

/-- C9, as the claim states it, fails: when the failure record is followed by
another record, only the failure record is written and flushed; the record after
it is never emitted. -/
theorem C9_records_after_failure_counterexample :
    (streamResponse [logFail, logBuildOk]).trace =
      [.Fprintln ["DATE".toList, "ACTION".toList, "LOG".toList],
       .Fprintf "2016-10-25 10:00:01".toList [] "Build status: Fail".toList, .Flush] ∧
    Event.Fprintf "2016-10-25 10:00:00".toList "build".toList "ok".toList
      ∉ (streamResponse [logFail, logBuildOk]).trace := by
  decide

/-- C9, amended: after the title line, `streamResponse` reads the records in
arrival order and writes and flushes one line for each, carrying its step name
and value, up to and including the first failure record (ID 0 and a value
containing `status: Fail`), where it stops; with no failure record the lines of
all records are emitted and the function returns. -/
theorem C9_lines_until_failure (ch : List Log) :
    ((∀ l ∈ ch, ¬ isFailure l) →
      (streamResponse ch).trace =
        .Fprintln ["DATE".toList, "ACTION".toList, "LOG".toList] :: ch.flatMap lineOf) ∧
    (∀ before l after, ch = before ++ l :: after →
      (∀ x ∈ before, ¬ isFailure x) → isFailure l →
      (streamResponse ch).trace =
        .Fprintln ["DATE".toList, "ACTION".toList, "LOG".toList]
          :: (before ++ [l]).flatMap lineOf) := by
  constructor
  · intro h
    simp [streamResponse, streamLoop_no_failure ch h]
  · rintro before l after rfl hb hl
    simp [streamResponse, streamLoop_failure before after l hb hl]

/-- C9 amended, at the stream of the spec: the step line and the failure record
are both emitted, in order. -/
theorem C9_lines_until_failure_witness :
    (streamResponse [logBuildOk, logFail]).trace =
      [.Fprintln ["DATE".toList, "ACTION".toList, "LOG".toList],
       .Fprintf "2016-10-25 10:00:00".toList "build".toList "ok".toList, .Flush,
       .Fprintf "2016-10-25 10:00:01".toList [] "Build status: Fail".toList, .Flush] :=
  (C9_lines_until_failure [logBuildOk, logFail]).2 [logBuildOk] logFail [] rfl
    (by
      intro x hx
      rw [isFailure_iff]
      simp only [List.mem_singleton] at hx
      subst hx
      decide)
    ((isFailure_iff logFail).mpr (by decide))

/-! ## The claims on `deleteActionHandler` -/

/-- C10, as the claim states it, fails: deleting the used action `Script` writes
the Forbidden error, not the Conflict error. -/
theorem C10_forbidden_not_conflict_counterexample :
    (deleteActionHandler (listStore [1]) demoCatalog "Script".toList 7).events =
      [.LoadPublicAction "Script".toList, .Used 1, .WriteError .ErrForbidden] ∧
    ApiEvent.WriteError .ErrConflict ∉
      (deleteActionHandler (listStore [1]) demoCatalog "Script".toList 7).events := by
  decide

/-- C10, amended: for every existing public action for which `Used` reports true,
`deleteActionHandler` writes the Forbidden error (`sdk.ErrForbidden`) and nothing
else, never calls `DeleteAction` and leaves the database as it was; whenever
`DeleteAction` is called, the action was loaded and `Used` reported false for it. -/
theorem C10_delete_used_forbidden {DB : Type} (st : ActionStore DB) (db : DB)
    (name : GoString) (userID : Int) :
    (∀ a, st.LoadPublicAction db name = .ok a → st.Used db a.ID = .ok true →
      (deleteActionHandler st db name userID).events =
        [.LoadPublicAction name, .Used a.ID, .WriteError .ErrForbidden] ∧
      (deleteActionHandler st db name userID).db = db ∧
      ∀ id uid, ApiEvent.DeleteAction id uid ∉ (deleteActionHandler st db name userID).events) ∧
    (∀ id uid, ApiEvent.DeleteAction id uid ∈ (deleteActionHandler st db name userID).events →
      ∃ a, st.LoadPublicAction db name = .ok a ∧ st.Used db a.ID = .ok false ∧ id = a.ID
        ∧ uid = userID) := by
  constructor
  · intro a hload hused
    simp [deleteActionHandler, hload, hused]
  · intro id uid hmem
    unfold deleteActionHandler at hmem
    cases hload : st.LoadPublicAction db name with
    | error e => simp [hload] at hmem
    | ok a =>
      cases hused : st.Used db a.ID with
      | error e => simp [hload, hused] at hmem
      | ok used =>
        cases used with
        | true => simp [hload, hused] at hmem
        | false =>
          refine ⟨a, rfl, hused, ?_⟩
          simp only [hload, hused] at hmem
          rcases hdel : st.DeleteAction db a.ID userID with ⟨db2, _ | err⟩
          · simpa [hdel] using hmem
          · simpa [hdel] using hmem

/-- C10 amended, at the used action `Script` of the demo catalog: Forbidden is
written and the catalog is unchanged. -/
theorem C10_delete_used_forbidden_witness :
    (deleteActionHandler (listStore [1]) demoCatalog "Script".toList 7).events =
      [.LoadPublicAction "Script".toList, .Used 1, .WriteError .ErrForbidden] ∧
    (deleteActionHandler (listStore [1]) demoCatalog "Script".toList 7).db = demoCatalog :=
  ⟨((C10_delete_used_forbidden (listStore [1]) demoCatalog "Script".toList 7).1
      ⟨1, "Script".toList, "Builtin".toList, true⟩ rfl rfl).1,
   ((C10_delete_used_forbidden (listStore [1]) demoCatalog "Script".toList 7).1
      ⟨1, "Script".toList, "Builtin".toList, true⟩ rfl rfl).2.1⟩

/-! ## The claims on `addActionHandler` and `importActionHandler` -/

/-- After the Conflict error is written for a name that exists, `addActionHandler`
goes on: as soon as the transaction begins, `InsertAction` is called, and a
second response follows the Conflict error. -/
theorem addActionHandler_conflict_continues {DB : Type} (st : ActionTx DB)
    (FromJSON : GoString → Option Action) (db tx : DB) (data : GoString) (a : Action)
    (hjson : FromJSON data = some a) (hexists : st.Exists db a.Name = .ok true)
    (hbegin : st.Begin db = .ok tx) :
    insertsOf (addActionHandler st FromJSON db (some data)).events
      = [{ a with Type_ := DefaultAction }] ∧
    ∃ second, ∃ tail,
      responsesOf (addActionHandler st FromJSON db (some data)).events
        = .WriteError .ErrConflict :: second :: tail := by
  simp only [addActionHandler, hjson, hexists, hbegin]
  rcases hins : st.InsertAction tx { a with Type_ := DefaultAction } true with ⟨tx2, a2, _ | err⟩
  · simp only
    cases hcommit : st.Commit tx2 with
    | error err => exact ⟨rfl, _, _, rfl⟩
    | ok db2 => exact ⟨rfl, _, _, rfl⟩
  · exact ⟨rfl, _, _, rfl⟩

/-- C11, at the failing input: adding the action `Script`, whose name exists in
the catalog, writes the Conflict error and then still begins a transaction and
calls `InsertAction`; with the unique index on the name the insert fails and its
error is written as a second response, and without the index the duplicate is
inserted, the transaction is committed and status 201 is written. -/
theorem C11_conflict_then_insert :
    (addActionHandler listTx nameDecoder demoCatalog (some "Script".toList)).events =
      [.Exists "Script".toList, .WriteError .ErrConflict, .Begin,
       .InsertAction ⟨0, "Script".toList, DefaultAction, true⟩ true,
       .WriteError (.other "duplicate key value violates unique constraint".toList),
       .Rollback] ∧
    (addActionHandler bagTx nameDecoder demoCatalog (some "Script".toList)).events =
      [.Exists "Script".toList, .WriteError .ErrConflict, .Begin,
       .InsertAction ⟨0, "Script".toList, DefaultAction, true⟩ true,
       .Commit, .WriteHeader 201, .Rollback] ∧
    (addActionHandler bagTx nameDecoder demoCatalog (some "Script".toList)).db =
      demoCatalog ++ [⟨3, "Script".toList, DefaultAction, true⟩] := by
  decide

/-- C12: for every action `a` that the import request decodes to, once the
transaction has begun: if loading the public action of that name succeeds, the
handler calls `UpdateActionDB` once, on `a` with its ID set to the ID of the
existing action, calls no insert, and, when the update and the commit succeed,
writes the action with status 200 and leaves the committed database; otherwise
it calls `InsertAction` once, on `a` with Enabled = true and Type = the default
action type, marked public, calls no update, and, when the insert and the commit
succeed, writes the action with status 201 and leaves the committed database. -/
theorem C12_import_upsert {DB : Type} (st : ActionTx DB) (dec : ActionDecoders) (db tx : DB)
    (req : ImportRequest) (userID : Int) (a : Action)
    (hdec : decodeImport dec req = .ok (some a)) (hbegin : st.Begin db = .ok tx) :
    (∀ existing, st.LoadPublicAction tx a.Name = .ok existing →
      updatesOf (importActionHandler st dec db req userID).events
        = [{ a with ID := existing.ID }] ∧
      insertsOf (importActionHandler st dec db req userID).events = [] ∧
      ∀ tx2 a2 db2,
        st.UpdateActionDB tx { a with ID := existing.ID } userID = (tx2, a2, none) →
        st.Commit tx2 = .ok db2 →
        responsesOf (importActionHandler st dec db req userID).events = [.WriteJSON a2 200] ∧
        (importActionHandler st dec db req userID).db = db2) ∧
    (∀ err, st.LoadPublicAction tx a.Name = .error err →
      insertsOf (importActionHandler st dec db req userID).events
        = [{ a with Enabled := true, Type_ := DefaultAction }] ∧
      TxEvent.InsertAction { a with Enabled := true, Type_ := DefaultAction } true
        ∈ (importActionHandler st dec db req userID).events ∧
      updatesOf (importActionHandler st dec db req userID).events = [] ∧
      ∀ tx2 a2 db2,
        st.InsertAction tx { a with Enabled := true, Type_ := DefaultAction } true
          = (tx2, a2, none) →
        st.Commit tx2 = .ok db2 →
        responsesOf (importActionHandler st dec db req userID).events = [.WriteJSON a2 201] ∧
        (importActionHandler st dec db req userID).db = db2) := by
  constructor
  · intro existing hload
    simp only [importActionHandler, hdec, hbegin, hload]
    rcases hupd : st.UpdateActionDB tx { a with ID := existing.ID } userID
      with ⟨tx2, a2, _ | err⟩
    · simp only [commitAndWrite]
      cases hcommit : st.Commit tx2 with
      | error err =>
        refine ⟨rfl, rfl, ?_⟩
        intro tx3 a3 db3 h3 hc3
        simp only [Prod.mk.injEq] at h3
        rw [← h3.1, hcommit] at hc3
        cases hc3
      | ok db2 =>
        refine ⟨rfl, rfl, ?_⟩
        intro tx3 a3 db3 h3 hc3
        simp only [Prod.mk.injEq, and_true] at h3
        rw [← h3.1, hcommit] at hc3
        cases hc3
        rw [← h3.2]
        exact ⟨rfl, rfl⟩
    · refine ⟨rfl, rfl, ?_⟩
      intro tx3 a3 db3 h3
      simp at h3
  · intro err hload
    simp only [importActionHandler, hdec, hbegin, hload]
    rcases hins : st.InsertAction tx { a with Enabled := true, Type_ := DefaultAction } true
      with ⟨tx2, a2, _ | err2⟩
    · simp only [commitAndWrite]
      cases hcommit : st.Commit tx2 with
      | error err3 =>
        refine ⟨rfl, by simp, rfl, ?_⟩
        intro tx3 a3 db3 h3 hc3
        simp only [Prod.mk.injEq] at h3
        rw [← h3.1, hcommit] at hc3
        cases hc3
      | ok db2 =>
        refine ⟨rfl, by simp, rfl, ?_⟩
        intro tx3 a3 db3 h3 hc3
        simp only [Prod.mk.injEq, and_true] at h3
        rw [← h3.1, hcommit] at hc3
        cases hc3
        rw [← h3.2]
        exact ⟨rfl, rfl⟩
    · refine ⟨rfl, by simp, rfl, ?_⟩
      intro tx3 a3 db3 h3
      simp at h3

/-- C12 at the demo catalog: importing `Script`, which exists with id 1, updates
it under id 1 and answers 200; importing `New`, which does not exist, inserts it
enabled and with the default type and answers 201. -/
theorem C12_import_upsert_witness :
    updatesOf (importActionHandler listTx nameDecoders demoCatalog (jsonRequest "Script") 7).events
      = [⟨1, "Script".toList, [], false⟩] ∧
    insertsOf (importActionHandler listTx nameDecoders demoCatalog (jsonRequest "Script") 7).events
      = [] ∧
    responsesOf
        (importActionHandler listTx nameDecoders demoCatalog (jsonRequest "Script") 7).events
      = [.WriteJSON ⟨1, "Script".toList, [], false⟩ 200] ∧
    insertsOf (importActionHandler listTx nameDecoders demoCatalog (jsonRequest "New") 7).events
      = [⟨0, "New".toList, DefaultAction, true⟩] ∧
    responsesOf (importActionHandler listTx nameDecoders demoCatalog (jsonRequest "New") 7).events
      = [.WriteJSON ⟨3, "New".toList, DefaultAction, true⟩ 201] :=
  ⟨((C12_import_upsert listTx nameDecoders demoCatalog demoCatalog (jsonRequest "Script") 7
      ⟨0, "Script".toList, [], false⟩ rfl rfl).1
      ⟨1, "Script".toList, "Builtin".toList, true⟩ rfl).1,
   ((C12_import_upsert listTx nameDecoders demoCatalog demoCatalog (jsonRequest "Script") 7
      ⟨0, "Script".toList, [], false⟩ rfl rfl).1
      ⟨1, "Script".toList, "Builtin".toList, true⟩ rfl).2.1,
   (((C12_import_upsert listTx nameDecoders demoCatalog demoCatalog (jsonRequest "Script") 7
      ⟨0, "Script".toList, [], false⟩ rfl rfl).1
      ⟨1, "Script".toList, "Builtin".toList, true⟩ rfl).2.2 _ _ _ rfl rfl).1,
   ((C12_import_upsert listTx nameDecoders demoCatalog demoCatalog (jsonRequest "New") 7
      ⟨0, "New".toList, [], false⟩ rfl rfl).2 .ErrNoAction rfl).1,
   (((C12_import_upsert listTx nameDecoders demoCatalog demoCatalog (jsonRequest "New") 7
      ⟨0, "New".toList, [], false⟩ rfl rfl).2 .ErrNoAction rfl).2.2.2 _ _ _ rfl rfl).1⟩

/-! ## The claims on `group.go` -/

/-- The statement of `LoadGroupByID` is refused whatever the database and the id:
its argument is the empty text, which does not read as an integer. -/
theorem LoadGroupByID_refused (db : Database) (id : Int) :
    LoadGroupByID db id = .error (.db .invalidTextRepresentation) := by
  rfl

/-- C13, at the failing input: in the database where group 1 is stored with name
`dev`, `LoadGroupByID 1` does not return that group but the error of the refused
statement, and for the id 99 that is not stored it returns the same error, not
`ErrGroupNotFound`; `LoadGroup`, with the name as argument, returns the group. -/
theorem C13_LoadGroupByID_ignores_id :
    (⟨1, "dev".toList⟩ : GroupRow) ∈ demoDatabase.group ∧
    LoadGroupByID demoDatabase 1 = .error (.db .invalidTextRepresentation) ∧
    LoadGroupByID demoDatabase 1 ≠ .ok ⟨1, "dev".toList⟩ ∧
    LoadGroupByID demoDatabase 99 ≠ .error .ErrGroupNotFound ∧
    LoadGroup demoDatabase "dev".toList = .ok ⟨1, "dev".toList⟩ := by
  decide

theorem filter_of_find? {α : Type} (p : α → Bool) (l : List α) (x : α)
    (h : l.find? p = some x) : ∃ tail, l.filter p = x :: tail := by
  induction l with
  | nil => simp at h
  | cons y ys ih =>
    by_cases hy : p y = true
    · simp only [List.find?_cons, hy, Option.some.injEq] at h
      subst h
      exact ⟨ys.filter p, by simp [List.filter_cons, hy]⟩
    · simp only [List.find?_cons, hy] at h
      obtain ⟨tail, ht⟩ := ih h
      exact ⟨tail, by simp [List.filter_cons, hy, ht]⟩

/-- C14: `AddGroup` has three outcomes.  If the name does not match the pattern it
returns (0, false, ErrInvalidGroupPattern), sends no statement and leaves the
database as it is.  Otherwise, if the group table has a row with that name, it
returns (the id of the first such row, false, ErrGroupExists), sends only the
select and leaves the database as it is.  Otherwise it inserts one row with the
name and the next id of the sequence, and returns (that id, true, nil). -/
theorem C14_AddGroup_outcomes (matchString : GoString → Bool) (db : Database) (group : Group) :
    (matchString group.Name = false →
      (AddGroup matchString db group).value = (0, false, some .ErrInvalidGroupPattern) ∧
      (AddGroup matchString db group).sent = [] ∧
      (AddGroup matchString db group).db = db) ∧
    (matchString group.Name = true →
      ∀ row, db.group.find? (fun r => r.name = group.Name) = some row →
        (AddGroup matchString db group).value = (row.id, false, some .ErrGroupExists) ∧
        (AddGroup matchString db group).sent = [(.selectGroupIdByName, [.text group.Name])] ∧
        (AddGroup matchString db group).db = db) ∧
    (matchString group.Name = true →
      (∀ row ∈ db.group, row.name ≠ group.Name) →
        (AddGroup matchString db group).value = (db.group_id_seq + 1, true, none) ∧
        (AddGroup matchString db group).db =
          { db with group := db.group ++ [⟨db.group_id_seq + 1, group.Name⟩],
                    group_id_seq := db.group_id_seq + 1 }) := by
  refine ⟨fun hm => ?_, fun hm row hrow => ?_, fun hm hnone => ?_⟩
  · simp [AddGroup, hm]
  · obtain ⟨tail, ht⟩ := filter_of_find? _ _ _ hrow
    simp [AddGroup, hm, Database.run, asText, ht, scanInt]
  · have hf : db.group.filter (fun r => decide (r.name = group.Name)) = [] := by
      rw [List.filter_eq_nil_iff]
      intro r hr
      simpa using hnone r hr
    have ha : db.group.any (fun r => decide (r.name = group.Name)) = false := by
      rw [List.any_eq_false]
      intro r hr
      simpa using hnone r hr
    simp [AddGroup, hm, Database.run, asText, hf, InsertGroup, Database.QueryRow, ha, scanInt]

/-- C14 at the demo database: ` ` is refused by the pattern, `ops` exists with
id 2, and `qa` is inserted with the new id 3. -/
theorem C14_AddGroup_outcomes_witness :
    (AddGroup demoPattern demoDatabase ⟨0, "o ps".toList⟩).value
      = (0, false, some .ErrInvalidGroupPattern) ∧
    (AddGroup demoPattern demoDatabase ⟨0, "ops".toList⟩).value
      = (2, false, some .ErrGroupExists) ∧
    (AddGroup demoPattern demoDatabase ⟨0, "qa".toList⟩).value = (3, true, none) :=
  ⟨((C14_AddGroup_outcomes demoPattern demoDatabase ⟨0, "o ps".toList⟩).1 (by decide)).1,
   ((C14_AddGroup_outcomes demoPattern demoDatabase ⟨0, "ops".toList⟩).2.1 (by decide)
      ⟨2, "ops".toList⟩ (by decide)).1,
   ((C14_AddGroup_outcomes demoPattern demoDatabase ⟨0, "qa".toList⟩).2.2 (by decide)
      (by decide)).1⟩

/-- With at most one row for a group and a user, the rows of a member are that
one row. -/
theorem filter_member_eq (l : List GroupUserRow) (groupID userID : Int) (row : GroupUserRow)
    (hkey : l.Pairwise (fun r s => ¬ (r.group_id = s.group_id ∧ r.user_id = s.user_id)))
    (hrow : row ∈ l) (hg : row.group_id = groupID) (hu : row.user_id = userID) :
    l.filter (fun r => decide (r.group_id = groupID ∧ r.user_id = userID)) = [row] := by
  induction l with
  | nil => simp at hrow
  | cons x xs ih =>
    rw [List.pairwise_cons] at hkey
    obtain ⟨hx, hxs⟩ := hkey
    by_cases hxk : x.group_id = groupID ∧ x.user_id = userID
    · have hnone : xs.filter (fun r => decide (r.group_id = groupID ∧ r.user_id = userID)) = [] := by
        rw [List.filter_eq_nil_iff]
        intro y hy hyk
        simp only [decide_eq_true_eq] at hyk
        exact hx y hy ⟨hxk.1.trans hyk.1.symm, hxk.2.trans hyk.2.symm⟩
      have hxr : row = x := by
        rcases List.mem_cons.mp hrow with h | h
        · exact h
        · exact absurd ⟨hxk.1.trans hg.symm, hxk.2.trans hu.symm⟩ (hx row h)
      rw [List.filter_cons, if_pos (by simpa using hxk), hnone, hxr]
    · have hrow2 : row ∈ xs := by
        rcases List.mem_cons.mp hrow with h | h
        · exact absurd ⟨h ▸ hg, h ▸ hu⟩ hxk
        · exact h
      simp only [List.filter_cons, hxk, decide_False, Bool.false_eq_true, if_false]
      exact ih hxs hrow2

/-- Filtering a list loses at most the elements filtered out. -/
theorem length_filter_le_add {α : Type} (p q : α → Bool) (l : List α) :
    (l.filter p).length ≤
      (l.filter (fun a => p a && q a)).length + (l.filter (fun x => !q x)).length := by
  induction l with
  | nil => simp
  | cons x xs ih =>
    by_cases hq : q x = true <;> by_cases hp : p x = true <;>
      simp only [List.filter_cons, hq, hp, Bool.and_self, Bool.and_true, Bool.and_false,
        Bool.not_true, Bool.not_false, Bool.false_eq_true, if_true, if_false,
        List.length_cons, Bool.not_eq_true, Bool.true_and, Bool.false_and] at * <;>
      simp_all <;> omega

/-- The three ways `DeleteUserFromGroup` ends, by the first row of the user in the
group: no row, an admin row of a group with at most one admin, or a row that is
deleted with all rows of the user in the group. -/
theorem DeleteUserFromGroup_eq (db : Database) (groupID userID : Int) :
    ((DeleteUserFromGroup db groupID userID).db, (DeleteUserFromGroup db groupID userID).value) =
      match db.group_user.filter (fun r => decide (r.group_id = groupID ∧ r.user_id = userID)) with
      | [] => (db, some (.db .ErrNoRows))
      | r :: _ =>
        if r.group_admin = true ∧ (adminsOf db groupID).length ≤ 1 then
          (db, some .ErrNotEnoughAdmin)
        else
          ({ db with group_user := (db.group_user.filter
              (fun r => decide (¬ (r.group_id = groupID ∧ r.user_id = userID)))) }, none) := by
  simp only [DeleteUserFromGroup, Database.QueryRow, Database.run, asBigint, adminsOf]
  cases hf : db.group_user.filter (fun r => decide (r.group_id = groupID ∧ r.user_id = userID)) with
  | nil => simp [Except.bind]
  | cons r rest =>
    cases hadm : r.group_admin with
    | false => simp [Except.bind, scanBool, hadm]
    | true =>
      simp [Except.bind, scanBool, scanInt, hadm]
      split <;> rfl

/-- With at most one row for a group and a user, deleting the rows of a member
deletes its one row and no other. -/
theorem filter_not_member_eq (l : List GroupUserRow) (groupID userID : Int) (row : GroupUserRow)
    (hf : l.filter (fun r => decide (r.group_id = groupID ∧ r.user_id = userID)) = [row]) :
    l.filter (fun r => decide (¬ (r.group_id = groupID ∧ r.user_id = userID)))
      = l.filter (fun r => decide (r ≠ row)) := by
  apply List.filter_congr
  intro r hr
  have hiff : (r.group_id = groupID ∧ r.user_id = userID) ↔ r = row := by
    have h1 : r ∈ l.filter (fun r => decide (r.group_id = groupID ∧ r.user_id = userID)) ↔
        r ∈ [row] := by rw [hf]
    simp only [List.mem_filter, hr, true_and, decide_eq_true_eq, List.mem_singleton] at h1
    exact h1
  by_cases h : r = row
  · subst h
    have hk := hiff.mpr rfl
    simp [hk]
  · have h2 : ¬ (r.group_id = groupID ∧ r.user_id = userID) := fun hk => h (hiff.mp hk)
    simp [h, h2]

/-- The admins of a group that are left when the rows of a user in a group are
deleted, the user having one row there: none is lost if that row is not an
admin row of the group, and at most one otherwise. -/
theorem admins_after_delete (l : List GroupUserRow) (groupID userID g : Int) (row : GroupUserRow)
    (hf : l.filter (fun r => decide (r.group_id = groupID ∧ r.user_id = userID)) = [row]) :
    (l.filter (fun r => decide (r.group_id = g ∧ r.group_admin = true))).length ≤
      ((l.filter (fun r => decide (¬ (r.group_id = groupID ∧ r.user_id = userID)))).filter
        (fun r => decide (r.group_id = g ∧ r.group_admin = true))).length
      + (if row.group_id = g ∧ row.group_admin = true then 1 else 0) := by
  have hmem : ∀ r ∈ l, (r.group_id = groupID ∧ r.user_id = userID) → r = row := by
    intro r hr hk
    have h1 : r ∈ l.filter (fun r => decide (r.group_id = groupID ∧ r.user_id = userID)) := by
      simp [List.mem_filter, hr, hk]
    rw [hf] at h1
    simpa using h1
  by_cases hrow : row.group_id = g ∧ row.group_admin = true
  · simp only [hrow, and_self, if_true]
    have h := length_filter_le_add (fun r : GroupUserRow => decide (r.group_id = g ∧ r.group_admin = true))
      (fun r => decide (¬ (r.group_id = groupID ∧ r.user_id = userID))) l
    have h2 : l.filter (fun x => !decide (¬ (x.group_id = groupID ∧ x.user_id = userID)))
        = [row] := by
      rw [← hf]
      apply List.filter_congr
      intro r _
      by_cases hk : r.group_id = groupID ∧ r.user_id = userID <;> simp [hk]
    rw [h2] at h
    rw [List.filter_filter]
    simpa using h
  · simp only [hrow, if_false, Nat.add_zero]
    rw [List.filter_filter]
    apply le_of_eq
    congr 1
    apply List.filter_congr
    intro r hr
    by_cases hk : r.group_id = groupID ∧ r.user_id = userID
    · have hr2 := hmem r hr hk
      subst hr2
      simp only [hk, and_self, not_true_eq_false, decide_False, Bool.and_false,
        decide_eq_false_iff_not]
      rw [← hk.1]
      exact hrow
    · simp [hk]

/-- C15: in a membership table with at most one row for a group and a user,
`DeleteUserFromGroup` never removes a group's last administrator.  If the user is
an admin of the group and the group has at most one admin, it returns
ErrNotEnoughAdmin and the database is unchanged.  If the user is a non-admin
member, or an admin of a group with two or more admins, it returns nil and the
membership table is the old one without the row of the user, every other row
being left as it was.  Whatever the arguments, every group that has an admin
before the call has an admin after it. -/
theorem C15_last_admin_kept (db : Database) (groupID userID : Int)
    (hkey : uniqueMembership db) :
    (∀ row ∈ db.group_user, row.group_id = groupID → row.user_id = userID →
      row.group_admin = true → (adminsOf db groupID).length ≤ 1 →
      (DeleteUserFromGroup db groupID userID).value = some .ErrNotEnoughAdmin ∧
      (DeleteUserFromGroup db groupID userID).db = db) ∧
    (∀ row ∈ db.group_user, row.group_id = groupID → row.user_id = userID →
      (row.group_admin = false ∨ 2 ≤ (adminsOf db groupID).length) →
      (DeleteUserFromGroup db groupID userID).value = none ∧
      (DeleteUserFromGroup db groupID userID).db =
        { db with group_user := (db.group_user.filter (fun r => decide (r ≠ row))) }) ∧
    (∀ g, adminsOf db g ≠ [] →
      adminsOf (DeleteUserFromGroup db groupID userID).db g ≠ []) := by
  have heq := DeleteUserFromGroup_eq db groupID userID
  refine ⟨?_, ?_, ?_⟩
  · intro row hrow hg hu hadm hn
    rw [filter_member_eq _ _ _ _ hkey hrow hg hu] at heq
    simp only [hadm, hn, and_self, if_true, Prod.mk.injEq] at heq
    exact ⟨heq.2, heq.1⟩
  · intro row hrow hg hu hcase
    have hf := filter_member_eq _ _ _ _ hkey hrow hg hu
    rw [hf] at heq
    have hc : ¬ (row.group_admin = true ∧ (adminsOf db groupID).length ≤ 1) := by
      rintro ⟨h1, h2⟩
      rcases hcase with h | h
      · rw [h] at h1
        cases h1
      · omega
    simp only [hc, if_false, Prod.mk.injEq] at heq
    rw [filter_not_member_eq _ _ _ _ hf] at heq
    exact ⟨heq.2, heq.1⟩
  · intro g hg
    cases hf : db.group_user.filter
        (fun r => decide (r.group_id = groupID ∧ r.user_id = userID)) with
    | nil =>
      rw [hf] at heq
      simp only [Prod.mk.injEq] at heq
      rw [heq.1]
      exact hg
    | cons r rest =>
      have hr : r ∈ db.group_user.filter
          (fun r => decide (r.group_id = groupID ∧ r.user_id = userID)) := by
        rw [hf]
        exact List.mem_cons_self _ _
      rw [List.mem_filter] at hr
      simp only [decide_eq_true_eq] at hr
      have hf1 := filter_member_eq _ _ _ _ hkey hr.1 hr.2.1 hr.2.2
      rw [hf1] at heq
      by_cases hc : r.group_admin = true ∧ (adminsOf db groupID).length ≤ 1
      · simp only [hc, and_self, if_true, Prod.mk.injEq] at heq
        rw [heq.1]
        exact hg
      · simp only [hc, if_false, Prod.mk.injEq] at heq
        rw [heq.1]
        have hlen := admins_after_delete db.group_user groupID userID g r hf1
        have hpos : 0 < (adminsOf db g).length := List.length_pos.mpr hg
        intro hnil
        unfold adminsOf at hnil hpos
        simp only at hnil
        rw [hnil] at hlen
        simp only [List.length_nil, Nat.zero_add] at hlen
        by_cases hrow : r.group_id = g ∧ r.group_admin = true
        · have hgg : g = groupID := hrow.1.symm.trans hr.2.1
          subst hgg
          apply hc
          refine ⟨hrow.2, ?_⟩
          simp only [hrow, and_self, if_true] at hlen
          unfold adminsOf
          exact hlen
        · simp only [hrow, if_false] at hlen
          omega

/-- C15 at the demo database: user 10, the only admin of group 1, is kept with
ErrNotEnoughAdmin; user 10, one of the two admins of group 2, is removed and the
three other rows stay; group 2 still has an admin. -/
theorem C15_last_admin_kept_witness :
    uniqueMembership demoDatabase ∧
    (DeleteUserFromGroup demoDatabase 1 10).value = some .ErrNotEnoughAdmin ∧
    (DeleteUserFromGroup demoDatabase 1 10).db = demoDatabase ∧
    (DeleteUserFromGroup demoDatabase 2 10).value = none ∧
    (DeleteUserFromGroup demoDatabase 2 10).db.group_user =
      [⟨1, 1, 10, true⟩, ⟨2, 1, 11, false⟩, ⟨4, 2, 12, true⟩] ∧
    adminsOf (DeleteUserFromGroup demoDatabase 2 10).db 2 ≠ [] :=
  ⟨by decide,
   ((C15_last_admin_kept demoDatabase 1 10 (by decide)).1 ⟨1, 1, 10, true⟩ (by decide) rfl rfl
      rfl (by decide)).1,
   ((C15_last_admin_kept demoDatabase 1 10 (by decide)).1 ⟨1, 1, 10, true⟩ (by decide) rfl rfl
      rfl (by decide)).2,
   ((C15_last_admin_kept demoDatabase 2 10 (by decide)).2.1 ⟨3, 2, 10, true⟩ (by decide) rfl rfl
      (Or.inr (by decide))).1,
   congrArg Database.group_user
     ((C15_last_admin_kept demoDatabase 2 10 (by decide)).2.1 ⟨3, 2, 10, true⟩ (by decide) rfl
       rfl (Or.inr (by decide))).2,
   (C15_last_admin_kept demoDatabase 2 10 (by decide)).2.2 2 (by decide)⟩

end Cds
